import Mathlib

/-!
Verification development for the gnc-brand-mcp orchestration core.

The definitions below are a shallow embedding of the TypeScript source:
the agentic orchestrator (`orchestrate`, `executeTool`, `trimHistory` in
the gemini service), the cache-first middleware (`cacheFirst`,
`writeCache`), the zod numeric validators (`schemas/zod.ts`), and the
in-memory session store (`createSession` et al.).  Machine numbers are
modelled as `Int`/`Nat` (durations, timestamps) and `Rat` (validator
inputs); JavaScript objects as association lists in source order;
fallible handlers as explicit outcome values.  The model (LLM) and the
tool handlers are oracles supplied through an environment record, so the
theorems quantify over every possible run.
-/

set_option linter.unusedVariables false
set_option maxRecDepth 100000

namespace GncMcp

/-- JSON-like structured values exchanged with tools (JS objects are
association lists in key order, numbers are `Int` — fractional numeric
payloads play no role in the orchestrator claims). -/
inductive Json where
  | null : Json
  | bool (b : Bool) : Json
  | str (s : String) : Json
  | num (n : Int) : Json
  | arr (items : List Json) : Json
  | obj (fields : List (String × Json)) : Json

/-- Key lookup in a JS object's field list (first occurrence). -/
def lookupField : List (String × Json) → String → Option Json
  | [], _ => none
  | (k, v) :: fs, key => if k = key then some v else lookupField fs key

def Json.getField? : Json → String → Option Json
  | .obj fs, key => lookupField fs key
  | _, _ => none

/-- JS `key in obj` (false on non-objects, matching guarded accesses). -/
def Json.hasField (j : Json) (key : String) : Bool := (j.getField? key).isSome

/-- JS object spread update: an existing key keeps its position and takes
the new value, a new key is appended. -/
def setFieldIn : List (String × Json) → String → Json → List (String × Json)
  | [], key, v => [(key, v)]
  | (k, w) :: fs, key, v =>
    if k = key then (k, v) :: fs else (k, w) :: setFieldIn fs key v

def Json.setField : Json → String → Json → Json
  | .obj fs, key, v => .obj (setFieldIn fs key v)
  | j, _, _ => j

/-- JS truthiness of a JSON value. -/
def Json.truthy : Json → Bool
  | .null => false
  | .bool b => b
  | .str s => if s = "" then false else true
  | .num n => if n = 0 then false else true
  | .arr _ => true
  | .obj _ => true

mutual

/-- JS `String(v)` as used by template interpolation. -/
def Json.display : Json → String
  | .null => "null"
  | .bool b => if b then "true" else "false"
  | .str s => s
  | .num n => toString n
  | .arr items => String.intercalate "," (displayList items)
  | .obj _ => "[object Object]"

def displayList : List Json → List String
  | [] => []
  | j :: js => Json.display j :: displayList js

end

/-- JS interpolation of a possibly-undefined value. -/
def displayOpt : Option Json → String
  | none => "undefined"
  | some j => j.display

/-- `functionCall` payload of a model part. -/
structure FunctionCall where
  name : String
  args : Json

/-- `functionResponse` payload of a user part. -/
structure FunctionResponse where
  name : String
  response : Json

/-- A content `Part`: a JS object that may carry any of these keys
(`none` = key absent, mirroring the `'key' in part` checks). -/
structure Part where
  thought : Option Bool := none
  text : Option String := none
  functionCall : Option FunctionCall := none
  functionResponse : Option FunctionResponse := none

/-- A history entry (`Content` in the source). -/
structure Content where
  role : String
  parts : List Part

def textPart (s : String) : Part := { text := some s }
def callPart (name : String) (args : Json) : Part := { functionCall := some ⟨name, args⟩ }
def responsePart (name : String) (result : Json) : Part :=
  { functionResponse := some ⟨name, result⟩ }

/-- Audit-trail record for one tool invocation (`ToolCallInfo`). -/
structure ToolCallInfo where
  name : String
  label : String
  cacheHit : Option Json := none
  durationMs : Nat
  error : Option String := none

/-- Stream events produced by `orchestrate` (`OrchestrateEvent` minus the
transport-level `connected`/`session` events). -/
inductive Event where
  | thinking (turn : Nat) (message : String)
  | textChunk (text : String)
  | toolStart (tools : List String) (labels : List String)
  | toolDone (info : ToolCallInfo)
  | answer (text : String) (toolCalls : List ToolCallInfo)

def TOOL_LABELS : List (String × String) :=
  [("get_profile", "Fetching Instagram profile"),
   ("get_user_posts", "Fetching recent posts"),
   ("get_user_reels", "Fetching recent reels"),
   ("get_hashtag_posts", "Fetching hashtag posts"),
   ("get_hashtag_stats", "Analysing hashtag statistics"),
   ("check_post", "Verifying post"),
   ("get_top_posts_by_reach", "Ranking posts by reach"),
   ("get_brand_mentions", "Scanning brand mentions"),
   ("find_top_influencers", "Ranking influencers by engagement"),
   ("check_user_topic_posts", "Scanning creator content"),
   ("discover_influencers", "Searching Google for influencers"),
   ("expand_network", "Expanding network via Instagram recommendations"),
   ("get_mention_network", "Mining peer mention network"),
   ("register_campaign_post", "Registering campaign posts"),
   ("monitor_campaign_post", "Monitoring campaign post"),
   ("get_campaign_compliance_report", "Generating compliance report"),
   ("evaluate_collaboration_performance", "Evaluating collaboration performance"),
   ("get_campaign_performance_summary", "Generating campaign performance summary"),
   ("get_continuation_recommendation", "Computing continuation recommendation"),
   ("get_engagement_timeline", "Loading engagement timeline"),
   ("mine_competitor_hashtags", "Mining competitor hashtags")]

def toolLabel (name : String) : String := (TOOL_LABELS.lookup name).getD name

def thinkingMessage (turn : Nat) (prevToolCount : Nat) : String :=
  if turn = 1 then "Analysing your request…"
  else if 0 < prevToolCount then "Processing tool results…"
  else "Thinking…"

/-- Outcome of running one tool handler: a returned payload, a thrown
`ToolError`, a thrown generic `Error`, or a thrown non-`Error` value.
`durMs` is the wall time the handler took. -/
inductive HandlerResult where
  | ok (result : Json) (durMs : Nat)
  | throwTool (message : String) (durMs : Nat)
  | throwError (message : String) (durMs : Nat)
  | throwOther (durMs : Nat)

/-- One model turn as observed by the orchestrator: the concatenated
stream-delta parts and the final candidate content (if any). -/
structure ModelResp where
  streamParts : List Part
  candidate : Option Content

/-- Oracle environment: the model's response for each turn index and the
`DISPATCH` table (`none` = unknown tool name). -/
structure OEnv where
  resp : Nat → ModelResp
  dispatch : String → Option (Json → HandlerResult)

/-- `executeTool` without event emission: the function-response payload
and the `ToolCallInfo` (source lines 125-148 of the gemini service). -/
def execCore (env : OEnv) (name : String) (args : Json) : Json × ToolCallInfo :=
  match env.dispatch name with
  | none =>
    (Json.obj [("error", Json.str ("Unknown tool: " ++ name))],
     { name := name, label := toolLabel name, durationMs := 0,
       error := some ("Unknown tool: " ++ name) })
  | some fn =>
    match fn args with
    | .ok result d =>
      (result,
       { name := name, label := toolLabel name, cacheHit := result.getField? "cacheHit",
         durationMs := d })
    | .throwTool m d =>
      (Json.obj [("error", Json.str m)],
       { name := name, label := toolLabel name, durationMs := d, error := some m })
    | .throwError m d =>
      (Json.obj [("error", Json.str m)],
       { name := name, label := toolLabel name, durationMs := d, error := some m })
    | .throwOther d =>
      (Json.obj [("error", Json.str "Unknown error")],
       { name := name, label := toolLabel name, durationMs := d,
         error := some "Unknown error" })

/-- Result of one `executeTool` call; `events` holds the per-invocation
`tool_done` emission (empty when the call is part of a batch, whose
grouped summary is emitted later). -/
structure ExecOut where
  result : Json
  info : ToolCallInfo
  events : List Event

def executeTool (env : OEnv) (name : String) (args : Json) (emitOn : Bool) : ExecOut :=
  let ri := execCore env name args
  { result := ri.1, info := ri.2,
    events := if emitOn then [Event.toolDone ri.2] else [] }

/-- Deduplicate keeping first occurrences (JS `Object.keys` of an
insertion-ordered record); `seen` accumulates the keys already kept. -/
def dedupFirstAux : List String → List String → List String
  | _, [] => []
  | seen, n :: ns =>
    if n ∈ seen then dedupFirstAux seen ns
    else n :: dedupFirstAux (n :: seen) ns

def dedupFirst (l : List String) : List String := dedupFirstAux [] l

/-- Lexicographic code-unit comparison (JS default string ordering). -/
def charListLe : List Char → List Char → Bool
  | [], _ => true
  | _ :: _, [] => false
  | a :: as, b :: bs =>
    if a.val < b.val then true
    else if b.val < a.val then false
    else charListLe as bs

def strLe (s t : String) : Bool := charListLe s.data t.data

/-- Ascending insertion, modelling JS `Array.prototype.sort()`. -/
def insertSorted (s : String) : List String → List String
  | [] => [s]
  | t :: ts => if strLe s t then s :: t :: ts else t :: insertSorted s ts

def sortNames : List String → List String
  | [] => []
  | s :: ss => insertSorted s (sortNames ss)

/-- `[...toolNames].sort().join(',')` — the repeated-call signature. -/
def signatureOf (ns : List String) : String := String.intercalate "," (sortNames ns)

/-- Names that occur more than once in this turn, in first-appearance
order (the keys of the `batchStats` record). -/
def batchedNames (ns : List String) : List String :=
  (dedupFirst ns).filter (fun m => decide (1 < ns.count m))

def execsNamed (execs : List ExecOut) (n : String) : List ExecOut :=
  execs.filter (fun e => e.info.name == n)

def optTruthy : Option Json → Bool
  | none => false
  | some j => j.truthy

def statErrors (l : List ExecOut) : Nat := l.countP (fun e => e.info.error.isSome)
def statSucceeded (l : List ExecOut) : Nat := l.countP (fun e => e.info.error.isNone)
def statTotalMs (l : List ExecOut) : Nat := (l.map (fun e => e.info.durationMs)).sum
def statCacheHits (l : List ExecOut) : Nat := l.countP (fun e => optTruthy e.info.cacheHit)

/-- JS `Math.round (num / den)` for nonnegative operands. -/
def jsRound (num den : Nat) : Nat := (2 * num + den) / (2 * den)

/-- The grouped `tool_done` summary for one batched tool name. -/
def syntheticInfo (n : String) (l : List ExecOut) : ToolCallInfo :=
  let errors := statErrors l
  let total := statSucceeded l + errors
  { name := n,
    label := toolLabel n ++ " ×" ++ toString total,
    cacheHit :=
      if 0 < statCacheHits l then some (Json.bool (statCacheHits l == total)) else none,
    durationMs := if 0 < total then jsRound (statTotalMs l) total else 0,
    error :=
      if 0 < errors then some (toString errors ++ "/" ++ toString total ++ " failed")
      else none }

/-- Stream texts forwarded as chunks: parts that are not truthy-`thought`
and carry a truthy `text`. -/
def chunkTexts (ps : List Part) : List String :=
  ps.filterMap (fun p =>
    if p.thought = some true then none
    else match p.text with
      | some s => if s = "" then none else some s
      | none => none)

/-- JS `a || b` on strings. -/
def jsOr (a b : String) : String := if a = "" then b else a

/-- `parts.filter(p => 'text' in p && !p.thought).map(p => p.text).join('')`. -/
def visibleText (ps : List Part) : String :=
  String.join (ps.filterMap (fun p => if p.thought = some true then none else p.text))

def extractCalls (ps : List Part) : List FunctionCall :=
  ps.filterMap (fun p => p.functionCall)

def MAX_TURNS : Nat := 10
def MAX_REPEATS : Nat := 2

def LOOP_BREAK_TEXT : String :=
  "I was unable to retrieve the requested data after multiple attempts. The posts for these users may not be cached yet — try calling get_user_posts or get_user_reels for each user first, then retry the analysis."

def EMPTY_TEXT : String := "I was unable to generate a response. Please try again."

def MAXDEPTH_TEXT : String := "Reached maximum tool call depth. Here is what I found so far."

def ALLFAILED_HEADER : String :=
  "I encountered errors with all tool calls and cannot proceed:\n"

/-- Mutable state of the `for` loop in `orchestrate`. -/
structure LoopState where
  history : List Content
  allToolCalls : List ToolCallInfo
  lastSig : String
  repeatCount : Nat
  events : List Event

/-- Outcome of one loop iteration: return from `orchestrate` with the
final answer text, or continue with the next turn. -/
inductive StepRes where
  | ret (text : String) (st : LoopState)
  | cont (st : LoopState)

def allFailedLines (calls : List FunctionCall) (execs : List ExecOut) : List String :=
  (calls.zip execs).map
    (fun ce => ce.1.name ++ ": " ++ displayOpt (ce.2.result.getField? "error"))

def allFailedText (lines : List String) : String :=
  ALLFAILED_HEADER ++ String.intercalate "\n" (lines.take 3) ++
    (if 3 < lines.length then "\n...and " ++ toString (lines.length - 3) ++ " more"
     else "")

/-- The tool executions of one turn, in call order; the per-invocation
emitter is suppressed for names that occur more than once. -/
def turnExecs (env : OEnv) (calls : List FunctionCall) : List ExecOut :=
  calls.map (fun fc =>
    executeTool env fc.name fc.args
      ((calls.map (fun g => g.name)).count fc.name == 1))

/-- The `function_response` parts of a turn, aligned 1:1 with the calls. -/
def turnResponses (env : OEnv) (calls : List FunctionCall) : List Part :=
  (calls.zip (turnExecs env calls)).map
    (fun ce => responsePart ce.1.name ce.2.result)

/-- The dispatch half of a turn (source lines 246-310): run every call,
collect per-call and grouped events, append the aligned user response
turn, then either short-circuit (all calls failed) or continue. -/
def dispatchPhase (env : OEnv) (st : LoopState) (hist1 : List Content)
    (ev1 : List Event) (calls : List FunctionCall) (sig1 : String) (rc1 : Nat) :
    StepRes :=
  let ns := calls.map (fun fc => fc.name)
  let execs := turnExecs env calls
  let perCallEvs := execs.flatMap (fun e => e.events)
  let synthEvs := (batchedNames ns).map
    (fun m => Event.toolDone (syntheticInfo m (execsNamed execs m)))
  let toolCalls1 := st.allToolCalls ++ execs.map (fun e => e.info)
  let hist2 := hist1 ++ [⟨"user", turnResponses env calls⟩]
  let ev2 := ev1 ++ perCallEvs ++ synthEvs
  if execs.all (fun e => e.result.hasField "error") then
    let text := allFailedText (allFailedLines calls execs)
    .ret text ⟨hist2, toolCalls1, sig1, rc1, ev2 ++ [Event.answer text toolCalls1]⟩
  else
    .cont ⟨hist2, toolCalls1, sig1, rc1, ev2⟩

/-- The grouped `tool_start` event of a turn: deduplicated names in
first-appearance order, with multiplicity labels. -/
def toolStartEvent (ns : List String) : Event :=
  Event.toolStart (dedupFirst ns)
    ((dedupFirst ns).map (fun m =>
      if 1 < ns.count m then toolLabel m ++ " ×" ++ toString (ns.count m)
      else toolLabel m))

/-- The whole tool-calling branch of a turn: grouped `tool_start`
emission, the repeated-signature loop-break check, then dispatch. -/
def toolTurn (env : OEnv) (st : LoopState) (hist1 : List Content)
    (ev0 : List Event) (calls : List FunctionCall) : StepRes :=
  let ns := calls.map (fun fc => fc.name)
  let ev1 := ev0 ++ [toolStartEvent ns]
  let sig := signatureOf ns
  if sig = st.lastSig then
    if MAX_REPEATS ≤ st.repeatCount + 1 then
      .ret LOOP_BREAK_TEXT ⟨hist1, st.allToolCalls, st.lastSig,
        st.repeatCount + 1,
        ev1 ++ [Event.answer LOOP_BREAK_TEXT st.allToolCalls]⟩
    else
      dispatchPhase env st hist1 ev1 calls st.lastSig (st.repeatCount + 1)
  else
    dispatchPhase env st hist1 ev1 calls sig 0

/-- One iteration of the agentic loop (source lines 170-311). `turn` is
the zero-based loop counter. -/
def stepTurn (env : OEnv) (turn : Nat) (st : LoopState) : StepRes :=
  let mr := env.resp turn
  let chunks := chunkTexts mr.streamParts
  let ev0 := st.events ++
    Event.thinking (turn + 1) (thinkingMessage (turn + 1) st.allToolCalls.length) ::
      chunks.map Event.textChunk
  match mr.candidate with
  | none =>
    let text := jsOr (String.join chunks) EMPTY_TEXT
    .ret text ⟨st.history, st.allToolCalls, st.lastSig, st.repeatCount,
      ev0 ++ [Event.answer text st.allToolCalls]⟩
  | some cand =>
    if cand.parts.isEmpty then
      let text := jsOr (String.join chunks) EMPTY_TEXT
      .ret text ⟨st.history, st.allToolCalls, st.lastSig, st.repeatCount,
        ev0 ++ [Event.answer text st.allToolCalls]⟩
    else
      let hist1 := st.history ++ [cand]
      let calls := extractCalls cand.parts
      if calls.isEmpty then
        let text := jsOr (String.join chunks) (jsOr (visibleText cand.parts) "Done.")
        .ret text ⟨hist1, st.allToolCalls, st.lastSig, st.repeatCount,
          ev0 ++ [Event.answer text st.allToolCalls]⟩
      else
        toolTurn env st hist1 ev0 calls

/-- Fallback text once `MAX_TURNS` is exhausted (source lines 313-320). -/
def lastModelText (hist : List Content) : String :=
  match (hist.filter (fun c => c.role == "model")).getLast? with
  | some c => visibleText c.parts
  | none => ""

structure OResult where
  text : String
  history : List Content
  toolCalls : List ToolCallInfo
  events : List Event

def orchestrateLoop (env : OEnv) : Nat → Nat → LoopState → String × LoopState
  | 0, _, st =>
    let text := jsOr (lastModelText st.history) MAXDEPTH_TEXT
    (text, ⟨st.history, st.allToolCalls, st.lastSig, st.repeatCount,
      st.events ++ [Event.answer text st.allToolCalls]⟩)
  | fuel + 1, turn, st =>
    match stepTurn env turn st with
    | .ret t st1 => (t, st1)
    | .cont st1 => orchestrateLoop env fuel (turn + 1) st1

def userContent (message : String) : Content := ⟨"user", [textPart message]⟩

/-- The orchestration engine (source lines 152-321). -/
def orchestrate (env : OEnv) (message : String) (history : List Content) : OResult :=
  let st0 : LoopState := ⟨history ++ [userContent message], [], "", 0, []⟩
  let out := orchestrateLoop env MAX_TURNS 0 st0
  ⟨out.1, out.2.history, out.2.allToolCalls, out.2.events⟩

/-- `Array.isArray(resp[key]) && resp[key].length > bound`. -/
def longArr (resp : Json) (key : String) (bound : Nat) : Bool :=
  match resp.getField? key with
  | some (.arr items) => bound < items.length
  | _ => false

def arrLenOf (resp : Json) (key : String) : Nat :=
  match resp.getField? key with
  | some (.arr items) => items.length
  | _ => 0

def arrItems (resp : Json) (key : String) : List Json :=
  match resp.getField? key with
  | some (.arr items) => items
  | _ => []

/-- JS `a ?? b` (nullish coalescing) on a field access. -/
def nullishOr (o : Option Json) (d : Json) : Json :=
  match o with
  | none => d
  | some .null => d
  | some v => v

/-- The per-part mapping of `trimHistory` (source lines 333-362). -/
def trimPart (p : Part) : Part :=
  match p.functionResponse with
  | some fr =>
    let resp := fr.response
    if longArr resp "posts" 3 then
      { functionResponse := some ⟨fr.name,
          (resp.setField "posts"
              (.str ("[" ++ toString (arrLenOf resp "posts") ++ " posts — trimmed for context]"))).setField
            "totalFetched"
            (nullishOr (resp.getField? "totalFetched") (.num (arrLenOf resp "posts")))⟩ }
    else if longArr resp "reels" 3 then
      { functionResponse := some ⟨fr.name,
          (resp.setField "reels"
              (.str ("[" ++ toString (arrLenOf resp "reels") ++ " reels — trimmed for context]"))).setField
            "totalFetched"
            (nullishOr (resp.getField? "totalFetched") (.num (arrLenOf resp "reels")))⟩ }
    else if longArr resp "results" 5 then
      { functionResponse := some ⟨fr.name,
          (resp.setField "results" (.arr ((arrItems resp "results").take 5))).setField
            "_trimmed" (.bool true)⟩ }
    else p
  | none => p

/-- `trimHistory` (source lines 325-364): drop parts carrying a `thought`
key, then compact oversized function-response payloads. -/
def trimHistory (history : List Content) : List Content :=
  history.map (fun entry =>
    ⟨entry.role, (entry.parts.filter (fun p => p.thought.isNone)).map trimPart⟩)

/-! ### Cache-first read-through (`middleware/cacheFirst.ts`) -/

/-- A persisted cache document: payload plus the `cachedAt` stamp (epoch
milliseconds). -/
structure CachedDoc where
  data : Json
  cachedAt : Int

/-- Mongo `$set`: merge the given fields into the stored document. -/
def mergeFields : List (String × Json) → List (String × Json) → List (String × Json)
  | old, [] => old
  | old, (k, v) :: rest => mergeFields (setFieldIn old k v) rest

def mongoSet (old upd : Json) : Json :=
  match old, upd with
  | .obj ofs, .obj nfs => .obj (mergeFields ofs nfs)
  | _, u => u

def lookupDoc : List (String × CachedDoc) → String → Option CachedDoc
  | [], _ => none
  | (k, d) :: rest, key => if k = key then some d else lookupDoc rest key

/-- The read half of `cacheFirst`: `findOne` on the key with
`cachedAt: \x7b $gt: new Date(now - ttlMs) \x7d`; `none` is the miss path
that falls through to the upstream fetch. -/
def cacheFirstRead (coll : List (String × CachedDoc)) (key : String)
    (ttlMs now : Int) : Option CachedDoc :=
  match lookupDoc coll key with
  | some d => if now - ttlMs < d.cachedAt then some d else none
  | none => none

/-- `writeCache`: `updateOne(query, $set: data + cachedAt := now, upsert)`. -/
def writeCache : List (String × CachedDoc) → String → Json → Int →
    List (String × CachedDoc)
  | [], key, data, now => [(key, ⟨data, now⟩)]
  | (k, d) :: rest, key, data, now =>
    if k = key then (k, ⟨mongoSet d.data data, now⟩) :: rest
    else (k, d) :: writeCache rest key data now

/-! ### Zod numeric validators (`schemas/zod.ts`) -/

/-- `z.number().int().min(lo).max(hi)` with an optional `.default`:
the int check rejects any non-integer double, then the range checks run.
No rounding or other coercion is applied. -/
def zNumIntRange (lo hi : Rat) (deflt : Option Rat) (v : Option Rat) :
    Except String Rat :=
  match v with
  | none =>
    match deflt with
    | some d => .ok d
    | none => .error "Required"
  | some q =>
    if q.den == 1 then
      if Rat.blt q lo then .error "Number must be greater than or equal to minimum"
      else if Rat.blt hi q then .error "Number must be less than or equal to maximum"
      else .ok q
    else .error "Expected integer, received float"

def limit10 : Option Rat → Except String Rat :=
  zNumIntRange (mkRat 1 1) (mkRat 10 1) (some (mkRat 10 1))

def daysField (deflt : Option Rat) : Option Rat → Except String Rat :=
  zNumIntRange (mkRat 1 1) (mkRat 90 1) deflt

def resultsLimitUserPosts : Option Rat → Except String Rat :=
  zNumIntRange (mkRat 1 1) (mkRat 50 1) (some (mkRat 20 1))

def limitTopPosts : Option Rat → Except String Rat :=
  zNumIntRange (mkRat 1 1) (mkRat 25 1) (some (mkRat 10 1))

/-- JS `Math.round` on a rational, via `floor (q + 1/2)` computed on the
numerator and denominator. -/
def jsRoundRat (q : Rat) : Int := Int.fdiv (2 * q.num + (q.den : Int)) (2 * (q.den : Int))

/-- The validator the specification describes (for comparison with
`zNumIntRange`, which is the one in the source): a float is rounded to
the nearest integer BEFORE the range checks, so near-integral floats
pass. Follows the spec's words, not the source. -/
def zNumIntRangeSpec (lo hi : Rat) (deflt : Option Rat) (v : Option Rat) :
    Except String Rat :=
  match v with
  | none =>
    match deflt with
    | some d => .ok d
    | none => .error "Required"
  | some q =>
    let r : Rat := mkRat (jsRoundRat q) 1
    if Rat.blt r lo then .error "Number must be greater than or equal to minimum"
    else if Rat.blt hi r then .error "Number must be less than or equal to maximum"
    else .ok r

/-! ### Session store (`services/session.ts` half of autoEnrich module) -/

def MAX_SESSIONS : Nat := 500
def SESSION_TTL : Int := 30 * 60 * 1000

structure SessionData where
  history : List Content
  createdAt : Int
  updatedAt : Int

/-- JS `Map.set`: replace in place or append. -/
def mapSet : List (String × SessionData) → String → SessionData →
    List (String × SessionData)
  | [], id, s => [(id, s)]
  | (k, v) :: rest, id, s =>
    if k = id then (k, s) :: rest else (k, v) :: mapSet rest id s

def mapLookup : List (String × SessionData) → String → Option SessionData
  | [], _ => none
  | (k, v) :: rest, id => if k = id then some v else mapLookup rest id

def mapDelete : List (String × SessionData) → String → List (String × SessionData)
  | [], _ => []
  | (k, v) :: rest, id => if k = id then rest else (k, v) :: mapDelete rest id

/-- Remove every session idle longer than `SESSION_TTL`. -/
def evictExpired (m : List (String × SessionData)) (now : Int) :
    List (String × SessionData) :=
  m.filter (fun kv => decide (now - kv.2.updatedAt ≤ SESSION_TTL))

/-- The first entry with minimal `updatedAt` (strict `<` during the scan
keeps the earliest-inserted minimum, like the JS loop). -/
def oldestEntry : List (String × SessionData) → Option (String × SessionData)
  | [] => none
  | kv :: rest =>
    some (rest.foldl
      (fun best x => if x.2.updatedAt < best.2.updatedAt then x else best) kv)

/-- LRU eviction. The JS guard `if (oldest) sessions.delete(oldest)` is
falsy for the empty-string key, so such a winner is NOT deleted. -/
def evictOldest (m : List (String × SessionData)) : List (String × SessionData) :=
  match oldestEntry m with
  | some kv => if kv.1 = "" then m else mapDelete m kv.1
  | none => m

def createSession (m : List (String × SessionData)) (id : String) (now : Int) :
    List (String × SessionData) :=
  let m1 := if MAX_SESSIONS ≤ m.length then evictOldest (evictExpired m now) else m
  mapSet m1 id ⟨[], now, now⟩

/-- `getSession`: returns the history and the updated store (expired
entries are deleted; a hit touches `updatedAt`). -/
def getSession (m : List (String × SessionData)) (id : String) (now : Int) :
    Option (List Content) × List (String × SessionData) :=
  match mapLookup m id with
  | none => (none, m)
  | some s =>
    if SESSION_TTL < now - s.updatedAt then (none, mapDelete m id)
    else (some s.history, mapSet m id ⟨s.history, s.createdAt, now⟩)

def setSession (m : List (String × SessionData)) (id : String)
    (h : List Content) (now : Int) : List (String × SessionData) :=
  match mapLookup m id with
  | some s => mapSet m id ⟨h, s.createdAt, now⟩
  | none =>
    let m1 := if MAX_SESSIONS ≤ m.length then evictOldest m else m
    mapSet m1 id ⟨h, now, now⟩

def deleteSession (m : List (String × SessionData)) (id : String) :
    List (String × SessionData) := mapDelete m id

def sessionCount (m : List (String × SessionData)) : Nat := m.length

/-- A call against the session-store API (the background sweep included),
carrying the wall-clock time it happens at. -/
inductive SessionOp where
  | create (id : String) (now : Int)
  | get (id : String) (now : Int)
  | set (id : String) (history : List Content) (now : Int)
  | del (id : String)
  | sweep (now : Int)

def applyOp (m : List (String × SessionData)) : SessionOp →
    List (String × SessionData)
  | .create id now => createSession m id now
  | .get id now => (getSession m id now).2
  | .set id h now => setSession m id h now
  | .del id => deleteSession m id
  | .sweep now => evictExpired m now

def runOps (m : List (String × SessionData)) (ops : List SessionOp) :
    List (String × SessionData) :=
  ops.foldl applyOp m

def isToolStart : Event → Bool
  | .toolStart _ _ => true
  | _ => false

def isToolDone : Event → Bool
  | .toolDone _ => true
  | _ => false

def toolDoneNamed (n : String) : Event → Bool
  | .toolDone i => i.name == n
  | _ => false

/-! ## Supporting lemmas -/

theorem lookupDoc_writeCache_self (coll : List (String × CachedDoc)) (key : String)
    (data : Json) (now : Int) :
    ∃ d, lookupDoc (writeCache coll key data now) key = some d ∧ d.cachedAt = now := by
  induction coll with
  | nil => exact ⟨⟨data, now⟩, by simp [writeCache, lookupDoc], rfl⟩
  | cons kv rest ih =>
    obtain ⟨k, d⟩ := kv
    by_cases h : k = key
    · exact ⟨⟨mongoSet d.data data, now⟩, by simp [writeCache, h, lookupDoc], rfl⟩
    · obtain ⟨d1, hd, hn⟩ := ih
      exact ⟨d1, by simpa [writeCache, h, lookupDoc] using hd, hn⟩

theorem lookupDoc_writeCache_other (coll : List (String × CachedDoc)) (key : String)
    (data : Json) (now : Int) (k : String) (hk : k ≠ key) :
    lookupDoc (writeCache coll key data now) k = lookupDoc coll k := by
  induction coll with
  | nil =>
    simp only [writeCache, lookupDoc]
    rw [if_neg (fun h => hk h.symm)]
  | cons kv rest ih =>
    obtain ⟨k1, d⟩ := kv
    by_cases h : k1 = key
    · subst h
      simp only [writeCache, if_pos rfl, lookupDoc]
      rw [if_neg (fun hkk => hk hkk.symm), if_neg (fun hkk => hk hkk.symm)]
    · simp only [writeCache, if_neg h, lookupDoc]
      by_cases h2 : k1 = k
      · rw [if_pos h2, if_pos h2]
      · rw [if_neg h2, if_neg h2]
        exact ih

/-! ## Claim theorems -/

/-- Claim C7: for every cache kind with TTL `T`, a cache read returns a
stored document `D` iff `now - D.cachedAt < T` (stale documents are
misses even before physical TTL-index expiry), and every cache write is
an upsert by key that stamps `cachedAt := now`. -/
theorem C7_theorem (coll : List (String × CachedDoc)) (key : String)
    (ttlMs now : Int) :
    (∀ d, cacheFirstRead coll key ttlMs now = some d ↔
      (lookupDoc coll key = some d ∧ now - d.cachedAt < ttlMs))
    ∧ (∀ data, ∃ d, lookupDoc (writeCache coll key data now) key = some d ∧
        d.cachedAt = now)
    ∧ (∀ data k, k ≠ key →
        lookupDoc (writeCache coll key data now) k = lookupDoc coll k) := by
  refine ⟨?_, fun data => lookupDoc_writeCache_self coll key data now,
    fun data k hk => lookupDoc_writeCache_other coll key data now k hk⟩
  intro d
  unfold cacheFirstRead
  cases h : lookupDoc coll key with
  | none => simp [h]
  | some d0 =>
    change (if now - ttlMs < d0.cachedAt then some d0 else none) = some d ↔ _
    by_cases hf : now - ttlMs < d0.cachedAt
    · rw [if_pos hf]
      constructor
      · intro h1
        injection h1 with h1
        subst h1
        exact ⟨rfl, by omega⟩
      · rintro ⟨hd, _⟩
        exact hd
    · rw [if_neg hf]
      constructor
      · intro h1
        exact Option.noConfusion h1
      · rintro ⟨hd, hfresh⟩
        injection hd with hd
        subst hd
        exact absurd hfresh (by omega)

/-- Claim C7 witness: a document stored 20 ms ago is returned by a read
with a 50 ms TTL. -/
theorem C7_witness :
    cacheFirstRead [("u", ⟨Json.obj [], 100⟩)] "u" 50 120 =
      some ⟨Json.obj [], 100⟩ :=
  ((C7_theorem [("u", ⟨Json.obj [], 100⟩)] "u" 50 120).1 ⟨Json.obj [], 100⟩).mpr
    ⟨by simp [lookupDoc], by decide⟩

/-- Claim C8 (amended): the integer validators apply no rounding — a
numeric argument passes the `int` check iff it is exactly integer-valued
(in ℚ, `10.0` IS `10`, so the LLM's `10.0` passes), and any non-integer
float is rejected before the range checks regardless of how close to an
integer it is. -/
theorem C8_theorem (lo hi : Rat) (deflt : Option Rat) (q : Rat) :
    (q.den = 1 → ¬ q < lo → ¬ hi < q →
      zNumIntRange lo hi deflt (some q) = .ok q)
    ∧ (q.den ≠ 1 →
      zNumIntRange lo hi deflt (some q) = .error "Expected integer, received float") := by
  constructor
  · intro hden hlo hhi
    have h1 : (q.den == 1) = true := by simpa using hden
    have h2 : Rat.blt q lo = false := Bool.eq_false_iff.mpr hlo
    have h3 : Rat.blt hi q = false := Bool.eq_false_iff.mpr hhi
    simp [zNumIntRange, h1, h2, h3]
  · intro hden
    have h1 : (q.den == 1) = false := by simpa using hden
    simp [zNumIntRange, h1]

/-- Claim C8 witness: the float `10.0` (the rational 10/1) passes the
`limit` validator of `get_top_posts_by_reach` / `discover_influencers`
unchanged. -/
theorem C8_witness :
    zNumIntRange (mkRat 1 1) (mkRat 25 1) (some (mkRat 10 1)) (some (mkRat 10 1)) =
      .ok (mkRat 10 1) :=
  (C8_theorem (mkRat 1 1) (mkRat 25 1) (some (mkRat 10 1)) (mkRat 10 1)).1
    (by decide) (by decide) (by decide)

/-- Claim C8 counterexample: the near-integral float `10.4` is rejected
by the source validator (`limit: z.number().int().min(1).max(25)`),
while the validator the spec describes (round to nearest integer, then
range-check) would accept it as `10`. No rounding happens before range
validation. -/
theorem C8_counterexample :
    limitTopPosts (some (mkRat 52 5)) = .error "Expected integer, received float"
    ∧ zNumIntRangeSpec (mkRat 1 1) (mkRat 25 1) (some (mkRat 10 1))
        (some (mkRat 52 5)) = .ok (mkRat 10 1) :=
  ⟨rfl, rfl⟩

/-- Claim C2: for every tool name and argument, `executeTool` returns a
(payload, info) pair rather than throwing: an unknown name yields the
`Unknown tool` error payload with `info.error` set; a handler exception
yields the classified message as error payload and `info.error`; a
normal return yields the handler's payload with `info.error` absent. -/
theorem C2_theorem (env : OEnv) (name : String) (args : Json) (emitOn : Bool) :
    (env.dispatch name = none →
      (executeTool env name args emitOn).result =
          Json.obj [("error", Json.str ("Unknown tool: " ++ name))]
        ∧ (executeTool env name args emitOn).info.error =
          some ("Unknown tool: " ++ name))
    ∧ (∀ fn r d, env.dispatch name = some fn → fn args = .ok r d →
        (executeTool env name args emitOn).result = r
        ∧ (executeTool env name args emitOn).info.error = none)
    ∧ (∀ fn m d, env.dispatch name = some fn → fn args = .throwTool m d →
        (executeTool env name args emitOn).result = Json.obj [("error", Json.str m)]
        ∧ (executeTool env name args emitOn).info.error = some m)
    ∧ (∀ fn m d, env.dispatch name = some fn → fn args = .throwError m d →
        (executeTool env name args emitOn).result = Json.obj [("error", Json.str m)]
        ∧ (executeTool env name args emitOn).info.error = some m)
    ∧ (∀ fn d, env.dispatch name = some fn → fn args = .throwOther d →
        (executeTool env name args emitOn).result =
            Json.obj [("error", Json.str "Unknown error")]
        ∧ (executeTool env name args emitOn).info.error = some "Unknown error") := by
  refine ⟨?_, ?_, ?_, ?_, ?_⟩
  · intro h
    simp [executeTool, execCore, h]
  · intro fn r d h hf
    simp [executeTool, execCore, h, hf]
  · intro fn m d h hf
    simp [executeTool, execCore, h, hf]
  · intro fn m d h hf
    simp [executeTool, execCore, h, hf]
  · intro fn d h hf
    simp [executeTool, execCore, h, hf]

def envC2 : OEnv :=
  { resp := fun _ => ⟨[], none⟩,
    dispatch := fun n =>
      if n = "boom" then some (fun _ => .throwTool "nope" 3) else none }

/-- Claim C2 witness: a throwing handler and an unknown name, both
resolved to error payloads. -/
theorem C2_witness :
    ((executeTool envC2 "boom" Json.null true).result =
        Json.obj [("error", Json.str "nope")]
      ∧ (executeTool envC2 "boom" Json.null true).info.error = some "nope")
    ∧ (executeTool envC2 "zzz" Json.null true).info.error =
        some ("Unknown tool: " ++ "zzz") :=
  ⟨(C2_theorem envC2 "boom" Json.null true).2.2.1 _ "nope" 3 rfl rfl,
   ((C2_theorem envC2 "zzz" Json.null true).1 rfl).2⟩

theorem lookupField_setFieldIn (fs : List (String × Json)) (tgt : String) (v : Json)
    (q : String) :
    lookupField (setFieldIn fs tgt v) q =
      if q = tgt then some v else lookupField fs q := by
  induction fs with
  | nil =>
    by_cases h : q = tgt
    · subst h
      simp [setFieldIn, lookupField]
    · simp [setFieldIn, lookupField, h, Ne.symm h]
  | cons kv rest ih =>
    obtain ⟨k1, w⟩ := kv
    by_cases h : k1 = tgt
    · subst h
      by_cases h2 : q = k1
      · subst h2
        simp [setFieldIn, lookupField]
      · simp [setFieldIn, lookupField, h2, Ne.symm h2]
    · by_cases h2 : k1 = q
      · subst h2
        have h3 : ¬ k1 = tgt := h
        simp [setFieldIn, lookupField, h3]
      · simp [setFieldIn, lookupField, h, h2, ih]

theorem getField?_setField (fs : List (String × Json)) (tgt : String) (v : Json)
    (q : String) :
    (Json.setField (.obj fs) tgt v).getField? q =
      if q = tgt then some v else (Json.obj fs).getField? q := by
  simp [Json.setField, Json.getField?, lookupField_setFieldIn]

theorem getField?_obj_of_some {j : Json} {key : String} {v : Json}
    (h : j.getField? key = some v) : ∃ fs, j = .obj fs := by
  cases j with
  | obj fs => exact ⟨fs, rfl⟩
  | null => exact absurd h (by simp [Json.getField?])
  | bool b => exact absurd h (by simp [Json.getField?])
  | str s => exact absurd h (by simp [Json.getField?])
  | num n => exact absurd h (by simp [Json.getField?])
  | arr l => exact absurd h (by simp [Json.getField?])

theorem longArr_iff (resp : Json) (key : String) (bound : Nat) :
    longArr resp key bound = true ↔
      ∃ items, resp.getField? key = some (.arr items) ∧ bound < items.length := by
  unfold longArr
  cases h : resp.getField? key with
  | none => simp
  | some v => cases v <;> simp [h]

theorem trimPart_thought (p : Part) (h : p.thought = none) :
    (trimPart p).thought = none := by
  unfold trimPart
  cases hfr : p.functionResponse with
  | none => exact h
  | some fr =>
    by_cases h1 : longArr fr.response "posts" 3 = true
    · simp [h1]
    · by_cases h2 : longArr fr.response "reels" 3 = true
      · simp [h1, h2]
      · by_cases h3 : longArr fr.response "results" 5 = true
        · simp [h1, h2, h3]
        · simp [h1, h2, h3, h]

/-- Claim C6 (amended): `trimHistory` removes every part that carries a
`thought` key, and compacts each `function_response` payload by the
FIRST applicable rule only — posts longer than 3 are replaced by the
placeholder string with `totalFetched` preserved (or set to the
length); otherwise reels longer than 3 likewise; otherwise a `results`
array longer than 5 keeps its first 5 elements and gains
`_trimmed: true`; all other fields pass through unchanged. A payload
matching several rules gets only the first one. -/
theorem C6_theorem (history : List Content) :
    (trimHistory history = history.map (fun entry =>
      ⟨entry.role, (entry.parts.filter (fun p => p.thought.isNone)).map trimPart⟩))
    ∧ (∀ c ∈ trimHistory history, ∀ p ∈ c.parts, p.thought = none)
    ∧ (∀ p : Part, p.functionResponse = none → trimPart p = p)
    ∧ (∀ (p : Part) fr, p.functionResponse = some fr →
        (longArr fr.response "posts" 3 = true →
          ∃ resp1, trimPart p = { functionResponse := some ⟨fr.name, resp1⟩ }
            ∧ resp1.getField? "posts" =
                some (.str ("[" ++ toString (arrLenOf fr.response "posts") ++
                  " posts — trimmed for context]"))
            ∧ resp1.getField? "totalFetched" =
                some (nullishOr (fr.response.getField? "totalFetched")
                  (.num (arrLenOf fr.response "posts")))
            ∧ ∀ k, k ≠ "posts" → k ≠ "totalFetched" →
                resp1.getField? k = fr.response.getField? k)
        ∧ (longArr fr.response "posts" 3 = false →
           longArr fr.response "reels" 3 = true →
          ∃ resp1, trimPart p = { functionResponse := some ⟨fr.name, resp1⟩ }
            ∧ resp1.getField? "reels" =
                some (.str ("[" ++ toString (arrLenOf fr.response "reels") ++
                  " reels — trimmed for context]"))
            ∧ resp1.getField? "totalFetched" =
                some (nullishOr (fr.response.getField? "totalFetched")
                  (.num (arrLenOf fr.response "reels")))
            ∧ ∀ k, k ≠ "reels" → k ≠ "totalFetched" →
                resp1.getField? k = fr.response.getField? k)
        ∧ (longArr fr.response "posts" 3 = false →
           longArr fr.response "reels" 3 = false →
           longArr fr.response "results" 5 = true →
          ∃ resp1, trimPart p = { functionResponse := some ⟨fr.name, resp1⟩ }
            ∧ resp1.getField? "results" =
                some (.arr ((arrItems fr.response "results").take 5))
            ∧ resp1.getField? "_trimmed" = some (.bool true)
            ∧ ∀ k, k ≠ "results" → k ≠ "_trimmed" →
                resp1.getField? k = fr.response.getField? k)
        ∧ (longArr fr.response "posts" 3 = false →
           longArr fr.response "reels" 3 = false →
           longArr fr.response "results" 5 = false → trimPart p = p)) := by
  refine ⟨rfl, ?_, ?_, ?_⟩
  · intro c hc p hp
    rw [trimHistory] at hc
    obtain ⟨entry, _, rfl⟩ := List.mem_map.mp hc
    obtain ⟨p0, hp0, rfl⟩ := List.mem_map.mp hp
    exact trimPart_thought p0 (Option.isNone_iff_eq_none.mp (List.mem_filter.mp hp0).2)
  · intro p hfr
    simp only [trimPart, hfr]
  · intro p fr hfr
    refine ⟨?_, ?_, ?_, ?_⟩
    · intro h1
      obtain ⟨items, hitems, hlen⟩ := (longArr_iff _ _ _).mp h1
      obtain ⟨fs, hfs⟩ := getField?_obj_of_some hitems
      have htp : trimPart p = { functionResponse := some ⟨fr.name,
          (fr.response.setField "posts"
              (.str ("[" ++ toString (arrLenOf fr.response "posts") ++
                " posts — trimmed for context]"))).setField "totalFetched"
            (nullishOr (fr.response.getField? "totalFetched")
              (.num (arrLenOf fr.response "posts")))⟩ } := by
        simp only [trimPart, hfr]
        rw [if_pos h1]
      refine ⟨_, htp, ?_, ?_, ?_⟩
      · rw [hfs]
        simp only [Json.setField, Json.getField?, lookupField_setFieldIn]
        simp
      · rw [hfs]
        simp only [Json.setField, Json.getField?, lookupField_setFieldIn]
        simp
      · intro k hk1 hk2
        rw [hfs]
        simp only [Json.setField, Json.getField?, lookupField_setFieldIn]
        rw [if_neg hk2, if_neg hk1]
    · intro h1 h2
      obtain ⟨items, hitems, hlen⟩ := (longArr_iff _ _ _).mp h2
      obtain ⟨fs, hfs⟩ := getField?_obj_of_some hitems
      have htp : trimPart p = { functionResponse := some ⟨fr.name,
          (fr.response.setField "reels"
              (.str ("[" ++ toString (arrLenOf fr.response "reels") ++
                " reels — trimmed for context]"))).setField "totalFetched"
            (nullishOr (fr.response.getField? "totalFetched")
              (.num (arrLenOf fr.response "reels")))⟩ } := by
        simp only [trimPart, hfr]
        rw [if_neg (Bool.eq_false_iff.mp h1), if_pos h2]
      refine ⟨_, htp, ?_, ?_, ?_⟩
      · rw [hfs]
        simp only [Json.setField, Json.getField?, lookupField_setFieldIn]
        simp
      · rw [hfs]
        simp only [Json.setField, Json.getField?, lookupField_setFieldIn]
        simp
      · intro k hk1 hk2
        rw [hfs]
        simp only [Json.setField, Json.getField?, lookupField_setFieldIn]
        rw [if_neg hk2, if_neg hk1]
    · intro h1 h2 h3
      obtain ⟨items, hitems, hlen⟩ := (longArr_iff _ _ _).mp h3
      obtain ⟨fs, hfs⟩ := getField?_obj_of_some hitems
      have htp : trimPart p = { functionResponse := some ⟨fr.name,
          (fr.response.setField "results"
              (.arr ((arrItems fr.response "results").take 5))).setField
            "_trimmed" (.bool true)⟩ } := by
        simp only [trimPart, hfr]
        rw [if_neg (Bool.eq_false_iff.mp h1), if_neg (Bool.eq_false_iff.mp h2),
          if_pos h3]
      refine ⟨_, htp, ?_, ?_, ?_⟩
      · rw [hfs]
        simp only [Json.setField, Json.getField?, lookupField_setFieldIn]
        simp
      · rw [hfs]
        simp only [Json.setField, Json.getField?, lookupField_setFieldIn]
        simp
      · intro k hk1 hk2
        rw [hfs]
        simp only [Json.setField, Json.getField?, lookupField_setFieldIn]
        rw [if_neg hk2, if_neg hk1]
    · intro h1 h2 h3
      simp only [trimPart, hfr]
      rw [if_neg (Bool.eq_false_iff.mp h1), if_neg (Bool.eq_false_iff.mp h2),
        if_neg (Bool.eq_false_iff.mp h3)]

def c6Resp : Json :=
  Json.obj [("posts", Json.arr (List.replicate 4 Json.null)),
            ("results", Json.arr (List.replicate 6 Json.null))]

def c6Hist : List Content := [⟨"user", [responsePart "check_user_topic_posts" c6Resp]⟩]

/-- Claim C6 witness: on a payload with 4 posts, the posts rule fires:
the array becomes the placeholder string, `totalFetched` is added, and
every other field (here the oversized `results`) passes through. -/
theorem C6_witness :
    longArr c6Resp "posts" 3 = true ∧
    (∃ resp1, trimPart (responsePart "get_user_posts" c6Resp) =
        { functionResponse := some ⟨"get_user_posts", resp1⟩ }
      ∧ resp1.getField? "posts" =
          some (.str ("[" ++ toString (arrLenOf c6Resp "posts") ++
            " posts — trimmed for context]"))
      ∧ resp1.getField? "totalFetched" =
          some (nullishOr (c6Resp.getField? "totalFetched")
            (.num (arrLenOf c6Resp "posts")))
      ∧ ∀ k, k ≠ "posts" → k ≠ "totalFetched" →
          resp1.getField? k = c6Resp.getField? k) :=
  ⟨by decide,
   ((C6_theorem c6Hist).2.2.2 (responsePart "get_user_posts" c6Resp)
      ⟨"get_user_posts", c6Resp⟩ rfl).1 (by decide)⟩

/-- Claim C6 counterexample: a payload whose `posts` (length 4) and
`results` (length 6) both exceed their thresholds. The claim as stated
demands the `results` rule apply as well (keep 5, add `_trimmed`); the
code applies only the first matching rule, leaving `results` at length
6 with no `_trimmed` flag. -/
theorem C6_counterexample :
    (((trimHistory c6Hist).head?.bind (fun c => c.parts.head?)).bind
        (fun p => p.functionResponse.map (fun fr =>
          (arrLenOf fr.response "results", fr.response.hasField "_trimmed"))) =
      some (6, false))
    ∧ ¬ (((trimHistory c6Hist).head?.bind (fun c => c.parts.head?)).bind
        (fun p => p.functionResponse.map (fun fr =>
          (arrLenOf fr.response "results", fr.response.hasField "_trimmed"))) =
      some (5, true)) := by
  constructor
  · decide
  · decide

/-- The loop state carried by either outcome of a step. -/
def stepState : StepRes → LoopState
  | .ret _ st => st
  | .cont st => st

theorem zip_self_map {α β γ : Type} (l : List α) (f : α → β) (g : α × β → γ) :
    (l.zip (l.map f)).map g = l.map (fun a => g (a, f a)) := by
  induction l with
  | nil => rfl
  | cons a as ih => simp only [List.map_cons, List.zip_cons_cons, ih]

theorem turnResponses_eq_map (env : OEnv) (calls : List FunctionCall) :
    turnResponses env calls = calls.map (fun fc =>
      responsePart fc.name (execCore env fc.name fc.args).1) := by
  unfold turnResponses turnExecs
  rw [zip_self_map]
  rfl

theorem dispatchPhase_state (env : OEnv) (st : LoopState) (hist1 : List Content)
    (ev1 : List Event) (calls : List FunctionCall) (sig1 : String) (rc1 : Nat) :
    (stepState (dispatchPhase env st hist1 ev1 calls sig1 rc1)).history =
      hist1 ++ [⟨"user", turnResponses env calls⟩]
    ∧ (stepState (dispatchPhase env st hist1 ev1 calls sig1 rc1)).allToolCalls =
      st.allToolCalls ++ (turnExecs env calls).map (fun e => e.info)
    ∧ (stepState (dispatchPhase env st hist1 ev1 calls sig1 rc1)).lastSig = sig1
    ∧ (stepState (dispatchPhase env st hist1 ev1 calls sig1 rc1)).repeatCount = rc1
    ∧ ∃ tail,
        (stepState (dispatchPhase env st hist1 ev1 calls sig1 rc1)).events =
          ev1 ++ (turnExecs env calls).flatMap (fun e => e.events) ++
            (batchedNames (calls.map (fun fc => fc.name))).map
              (fun m => Event.toolDone (syntheticInfo m (execsNamed (turnExecs env calls) m)))
            ++ tail
        ∧ ∀ e ∈ tail, ∃ txt tc, e = Event.answer txt tc := by
  unfold dispatchPhase
  by_cases hall : (turnExecs env calls).all (fun e => e.result.hasField "error") = true
  · rw [if_pos hall]
    refine ⟨rfl, rfl, rfl, rfl,
      ⟨[Event.answer (allFailedText (allFailedLines calls (turnExecs env calls)))
          (st.allToolCalls ++ (turnExecs env calls).map (fun e => e.info))], ?_, ?_⟩⟩
    · simp [stepState, List.append_assoc]
    · intro e he
      rw [List.mem_singleton] at he
      exact ⟨_, _, he⟩
  · rw [if_neg hall]
    exact ⟨rfl, rfl, rfl, rfl, ⟨[], by simp [stepState], by simp⟩⟩

theorem toolTurn_history (env : OEnv) (st : LoopState) (hist1 : List Content)
    (ev0 : List Event) (calls : List FunctionCall) :
    ∃ tail, (stepState (toolTurn env st hist1 ev0 calls)).history = hist1 ++ tail := by
  simp only [toolTurn]
  by_cases hsig : signatureOf (calls.map (fun fc => fc.name)) = st.lastSig
  · rw [if_pos hsig]
    by_cases hrc : MAX_REPEATS ≤ st.repeatCount + 1
    · rw [if_pos hrc]
      exact ⟨[], by simp [stepState]⟩
    · rw [if_neg hrc]
      exact ⟨[⟨"user", turnResponses env calls⟩],
        (dispatchPhase_state env st hist1 _ calls _ _).1⟩
  · rw [if_neg hsig]
    exact ⟨[⟨"user", turnResponses env calls⟩],
      (dispatchPhase_state env st hist1 _ calls _ _).1⟩

theorem stepTurn_history_extends (env : OEnv) (t : Nat) (st : LoopState) :
    ∃ tail, (stepState (stepTurn env t st)).history = st.history ++ tail := by
  simp only [stepTurn]
  split
  · exact ⟨[], by simp [stepState]⟩
  · rename_i cand heq
    split
    · exact ⟨[], by simp [stepState]⟩
    · split
      · exact ⟨[cand], by simp [stepState]⟩
      · obtain ⟨tail, ht⟩ := toolTurn_history env st (st.history ++ [cand]) _
          (extractCalls cand.parts)
        exact ⟨[cand] ++ tail, by rw [ht, List.append_assoc]⟩

theorem orchestrateLoop_history_extends (env : OEnv) (fuel turn : Nat)
    (st : LoopState) :
    ∃ tail, (orchestrateLoop env fuel turn st).2.history = st.history ++ tail := by
  induction fuel generalizing turn st with
  | zero => exact ⟨[], by simp [orchestrateLoop]⟩
  | succ f ih =>
    cases h : stepTurn env turn st with
    | ret txt st1 =>
      have ht := stepTurn_history_extends env turn st
      rw [h] at ht
      simp only [stepState] at ht
      obtain ⟨tail, ht⟩ := ht
      refine ⟨tail, ?_⟩
      rw [orchestrateLoop]
      simp only [h]
      exact ht
    | cont st1 =>
      have ht1 := stepTurn_history_extends env turn st
      rw [h] at ht1
      simp only [stepState] at ht1
      obtain ⟨tail1, ht1⟩ := ht1
      obtain ⟨tail2, ht2⟩ := ih (turn + 1) st1
      refine ⟨tail1 ++ tail2, ?_⟩
      rw [orchestrateLoop]
      simp only [h]
      rw [ht2, ht1, List.append_assoc]

/-- Claim C10: on every return path of `orchestrate`, the returned
history extends the caller's input history: the input is an unchanged
prefix, and the element right after it is the pushed user turn carrying
the message. Retention: every turn of the loop only ever APPENDS to the
history (the model turn and its function-response turn are appends), and
the history the loop returns — early returns included — extends
whatever state the loop held, so model turns and function-response
turns appended before an early return remain in the returned history. -/
theorem C10_theorem (env : OEnv) (message : String) (history : List Content) :
    (orchestrate env message history).history.take history.length = history
    ∧ (orchestrate env message history).history.get? history.length =
        some (userContent message)
    ∧ (∀ (t : Nat) (st : LoopState), ∃ tail,
        (stepState (stepTurn env t st)).history = st.history ++ tail)
    ∧ (∀ (fuel turn : Nat) (st : LoopState), ∃ tail,
        (orchestrateLoop env fuel turn st).2.history = st.history ++ tail) := by
  obtain ⟨tail, ht⟩ := orchestrateLoop_history_extends env MAX_TURNS 0
    ⟨history ++ [userContent message], [], "", 0, []⟩
  have hh : (orchestrate env message history).history =
      history ++ [userContent message] ++ tail := by
    simpa [orchestrate] using ht
  refine ⟨?_, ?_, fun t st => stepTurn_history_extends env t st,
    fun fuel turn st => orchestrateLoop_history_extends env fuel turn st⟩
  · rw [hh, List.append_assoc]
    exact List.take_left history ([userContent message] ++ tail)
  · rw [hh, List.append_assoc, List.get?_eq_getElem?,
      List.getElem?_append_right (by simp)]
    simp

/-- Events a tool-calling turn emits before the loop-break check:
`thinking`, the forwarded text chunks, and the grouped `tool_start`. -/
def preEvents (env : OEnv) (t : Nat) (st : LoopState) (ns : List String) : List Event :=
  Event.thinking (t + 1) (thinkingMessage (t + 1) st.allToolCalls.length) ::
    ((chunkTexts (env.resp t).streamParts).map Event.textChunk ++ [toolStartEvent ns])

theorem stepTurn_eq_toolTurn (env : OEnv) (t : Nat) (st : LoopState) (cand : Content)
    (hresp : (env.resp t).candidate = some cand) (hne : cand.parts ≠ [])
    (hcalls : extractCalls cand.parts ≠ []) :
    stepTurn env t st = toolTurn env st (st.history ++ [cand])
      (st.events ++
        Event.thinking (t + 1) (thinkingMessage (t + 1) st.allToolCalls.length) ::
          (chunkTexts (env.resp t).streamParts).map Event.textChunk)
      (extractCalls cand.parts) := by
  simp only [stepTurn, hresp]
  rw [if_neg (by simpa using hne), if_neg (by simpa using hcalls)]

theorem toolTurn_loopBreak (env : OEnv) (st : LoopState) (hist1 : List Content)
    (ev0 : List Event) (calls : List FunctionCall)
    (hsig : signatureOf (calls.map (fun fc => fc.name)) = st.lastSig)
    (hrc : MAX_REPEATS ≤ st.repeatCount + 1) :
    toolTurn env st hist1 ev0 calls = .ret LOOP_BREAK_TEXT
      ⟨hist1, st.allToolCalls, st.lastSig, st.repeatCount + 1,
       (ev0 ++ [toolStartEvent (calls.map (fun fc => fc.name))]) ++
         [Event.answer LOOP_BREAK_TEXT st.allToolCalls]⟩ := by
  simp only [toolTurn]
  rw [if_pos hsig, if_pos hrc]

theorem toolTurn_dispatch (env : OEnv) (st : LoopState) (hist1 : List Content)
    (ev0 : List Event) (calls : List FunctionCall)
    (hnolb : ¬ (signatureOf (calls.map (fun fc => fc.name)) = st.lastSig ∧
      MAX_REPEATS ≤ st.repeatCount + 1)) :
    toolTurn env st hist1 ev0 calls =
      dispatchPhase env st hist1
        (ev0 ++ [toolStartEvent (calls.map (fun fc => fc.name))]) calls
        (if signatureOf (calls.map (fun fc => fc.name)) = st.lastSig then st.lastSig
         else signatureOf (calls.map (fun fc => fc.name)))
        (if signatureOf (calls.map (fun fc => fc.name)) = st.lastSig then
          st.repeatCount + 1 else 0) := by
  simp only [toolTurn]
  by_cases hsig : signatureOf (calls.map (fun fc => fc.name)) = st.lastSig
  · rw [if_pos hsig, if_neg (fun hrc => hnolb ⟨hsig, hrc⟩), if_pos hsig, if_pos hsig]
  · rw [if_neg hsig, if_neg hsig, if_neg hsig]

/-- Claim C1 (amended): for every turn whose final candidate contains
function-call parts, if the turn is not ended by the loop-break check
then the history receives the model turn followed by exactly one user
turn holding one `function_response` per `function_call` in identical
positions (response i answers call i of the original order) — on both
the continue and the all-failed return paths; on the loop-break return
path the model turn is appended with NO function responses at all. -/
theorem C1_theorem (env : OEnv) (t : Nat) (st : LoopState) (cand : Content)
    (hresp : (env.resp t).candidate = some cand) (hne : cand.parts ≠ [])
    (hcalls : extractCalls cand.parts ≠ []) :
    (¬ (signatureOf ((extractCalls cand.parts).map (fun fc => fc.name)) = st.lastSig ∧
        MAX_REPEATS ≤ st.repeatCount + 1) →
      (stepState (stepTurn env t st)).history =
        st.history ++ [cand, ⟨"user", turnResponses env (extractCalls cand.parts)⟩]
      ∧ (turnResponses env (extractCalls cand.parts)).length =
          (extractCalls cand.parts).length
      ∧ ∀ i fc, (extractCalls cand.parts).get? i = some fc →
          (turnResponses env (extractCalls cand.parts)).get? i =
            some (responsePart fc.name (execCore env fc.name fc.args).1))
    ∧ ((signatureOf ((extractCalls cand.parts).map (fun fc => fc.name)) = st.lastSig ∧
        MAX_REPEATS ≤ st.repeatCount + 1) →
      (stepState (stepTurn env t st)).history = st.history ++ [cand]
      ∧ ∃ st1, stepTurn env t st = .ret LOOP_BREAK_TEXT st1) := by
  constructor
  · intro hnolb
    rw [stepTurn_eq_toolTurn env t st cand hresp hne hcalls,
      toolTurn_dispatch env st _ _ _ hnolb]
    refine ⟨?_, ?_, ?_⟩
    · rw [(dispatchPhase_state env st _ _ _ _ _).1, List.append_assoc]
      rfl
    · rw [turnResponses_eq_map, List.length_map]
    · intro i fc hfc
      rw [turnResponses_eq_map, List.get?_map, hfc]
      rfl
  · intro ⟨hsig, hrc⟩
    rw [stepTurn_eq_toolTurn env t st cand hresp hne hcalls,
      toolTurn_loopBreak env st _ _ _ hsig hrc]
    exact ⟨rfl, ⟨_, rfl⟩⟩

def c1wCand : Content := ⟨"model",
  [callPart "get_profile" (Json.str "u1"), callPart "get_hashtag_stats" (Json.str "h")]⟩

def c1wEnv : OEnv :=
  { resp := fun _ => { streamParts := [], candidate := some c1wCand },
    dispatch := fun _ => some (fun _ => .ok (Json.obj [("ok", Json.bool true)]) 7) }

/-- Claim C1 witness: a dispatching turn with two calls; the appended
user turn aligns response 0 and response 1 with calls 0 and 1. -/
theorem C1_witness :
    (stepState (stepTurn c1wEnv 0 ⟨[], [], "", 0, []⟩)).history =
      [] ++ [c1wCand, ⟨"user", turnResponses c1wEnv (extractCalls c1wCand.parts)⟩]
    ∧ (turnResponses c1wEnv (extractCalls c1wCand.parts)).length =
        (extractCalls c1wCand.parts).length
    ∧ (turnResponses c1wEnv (extractCalls c1wCand.parts)).get? 1 =
        some (responsePart "get_hashtag_stats"
          (execCore c1wEnv "get_hashtag_stats" (Json.str "h")).1) := by
  have h := C1_theorem c1wEnv 0 ⟨[], [], "", 0, []⟩ c1wCand rfl
    (List.cons_ne_nil _ _) (List.cons_ne_nil _ _)
  have h1 := h.1 (by intro hc; exact absurd hc.1 (by decide))
  exact ⟨h1.1, h1.2.1, h1.2.2 1 ⟨"get_hashtag_stats", Json.str "h"⟩ rfl⟩

def c1xEnv : OEnv :=
  { resp := fun _ =>
      { streamParts := [], candidate := some ⟨"model", [callPart "a" Json.null]⟩ },
    dispatch := fun _ => some (fun _ => .ok (Json.obj []) 5) }

/-- Claim C1 counterexample: with a model that issues the same call
every turn and a succeeding handler, the third turn ends through the
loop-break path: its model turn (history index 5, one function-call
part) is the LAST history entry — no function-response user turn
follows it, so the claim's "every path ... including the loop-break
return path" fails. -/
theorem C1_counterexample :
    (orchestrate c1xEnv "hi" []).history.length = 6
    ∧ ((orchestrate c1xEnv "hi" []).history.get? 5).map (fun c => c.role) =
        some "model"
    ∧ ((orchestrate c1xEnv "hi" []).history.get? 5).map
        (fun c => (extractCalls c.parts).length) = some 1
    ∧ ((orchestrate c1xEnv "hi" []).history.get? 6).isNone = true
    ∧ (orchestrate c1xEnv "hi" []).text = LOOP_BREAK_TEXT := by
  exact ⟨by decide, by decide, by decide, by decide, by decide⟩

theorem countP_preEvents_isToolDone (env : OEnv) (t : Nat) (st : LoopState)
    (ns : List String) :
    (preEvents env t st ns).countP isToolDone = 0 := by
  rw [List.countP_eq_zero]
  intro e he
  simp only [preEvents, List.mem_cons, List.mem_append, List.mem_map,
    List.mem_singleton, List.not_mem_nil, or_false] at he
  rcases he with rfl | ⟨⟨s, _, rfl⟩ | rfl⟩ <;> simp [isToolDone, toolStartEvent]

theorem stepTurn_cont_inv (env : OEnv) (t : Nat) (st : LoopState) (cand : Content)
    (hresp : (env.resp t).candidate = some cand) (hne : cand.parts ≠ [])
    (hcalls : extractCalls cand.parts ≠ []) (st1 : LoopState)
    (h : stepTurn env t st = .cont st1) :
    st1.lastSig = signatureOf ((extractCalls cand.parts).map (fun fc => fc.name))
    ∧ ((signatureOf ((extractCalls cand.parts).map (fun fc => fc.name)) = st.lastSig
        ∧ st1.repeatCount = st.repeatCount + 1
        ∧ st.repeatCount + 1 < MAX_REPEATS)
      ∨ (signatureOf ((extractCalls cand.parts).map (fun fc => fc.name)) ≠ st.lastSig
        ∧ st1.repeatCount = 0)) := by
  rw [stepTurn_eq_toolTurn env t st cand hresp hne hcalls] at h
  by_cases hsig : signatureOf ((extractCalls cand.parts).map (fun fc => fc.name)) =
      st.lastSig
  · by_cases hrc : MAX_REPEATS ≤ st.repeatCount + 1
    · rw [toolTurn_loopBreak env st _ _ _ hsig hrc] at h
      exact StepRes.noConfusion h
    · rw [toolTurn_dispatch env st _ _ _ (fun hc => hrc hc.2),
        if_pos hsig, if_pos hsig] at h
      have hds := dispatchPhase_state env st (st.history ++ [cand])
        ((st.events ++
          Event.thinking (t + 1) (thinkingMessage (t + 1) st.allToolCalls.length) ::
            (chunkTexts (env.resp t).streamParts).map Event.textChunk) ++
          [toolStartEvent ((extractCalls cand.parts).map (fun fc => fc.name))])
        (extractCalls cand.parts) st.lastSig (st.repeatCount + 1)
      rw [h] at hds
      simp only [stepState] at hds
      refine ⟨hsig ▸ hds.2.2.1, Or.inl ⟨hsig, hds.2.2.2.1, by omega⟩⟩
  · rw [toolTurn_dispatch env st _ _ _ (fun hc => hsig hc.1),
      if_neg hsig, if_neg hsig] at h
    have hds := dispatchPhase_state env st (st.history ++ [cand])
      ((st.events ++
        Event.thinking (t + 1) (thinkingMessage (t + 1) st.allToolCalls.length) ::
          (chunkTexts (env.resp t).streamParts).map Event.textChunk) ++
        [toolStartEvent ((extractCalls cand.parts).map (fun fc => fc.name))])
      (extractCalls cand.parts)
      (signatureOf ((extractCalls cand.parts).map (fun fc => fc.name))) 0
    rw [h] at hds
    simp only [stepState] at hds
    exact ⟨hds.2.2.1, Or.inr ⟨hsig, hds.2.2.2.1⟩⟩

/-- Claim C3: each tool-calling turn's sorted tool-name multiset is
compared against the previous turn's signature — on equality the repeat
counter increments, otherwise it resets to 0 and the new signature is
recorded; once the incremented counter reaches `MAX_REPEATS` (2) the
loop returns the canned answer without dispatching that turn's calls
(no `tool_done` is emitted, the audit trail is unchanged), so three
consecutive turns with identical signatures can never all dispatch. -/
theorem C3_theorem (env : OEnv) (t : Nat) (st : LoopState) (cand : Content)
    (hresp : (env.resp t).candidate = some cand) (hne : cand.parts ≠ [])
    (hcalls : extractCalls cand.parts ≠ []) :
    ((signatureOf ((extractCalls cand.parts).map (fun fc => fc.name)) = st.lastSig →
      MAX_REPEATS ≤ st.repeatCount + 1 →
      stepTurn env t st = .ret LOOP_BREAK_TEXT
        ⟨st.history ++ [cand], st.allToolCalls, st.lastSig, st.repeatCount + 1,
         st.events ++
           preEvents env t st ((extractCalls cand.parts).map (fun fc => fc.name)) ++
           [Event.answer LOOP_BREAK_TEXT st.allToolCalls]⟩
      ∧ (preEvents env t st
          ((extractCalls cand.parts).map (fun fc => fc.name))).countP isToolDone = 0))
    ∧ (signatureOf ((extractCalls cand.parts).map (fun fc => fc.name)) = st.lastSig →
        st.repeatCount + 1 < MAX_REPEATS →
        (stepState (stepTurn env t st)).repeatCount = st.repeatCount + 1
        ∧ (stepState (stepTurn env t st)).lastSig = st.lastSig)
    ∧ (signatureOf ((extractCalls cand.parts).map (fun fc => fc.name)) ≠ st.lastSig →
        (stepState (stepTurn env t st)).repeatCount = 0
        ∧ (stepState (stepTurn env t st)).lastSig =
            signatureOf ((extractCalls cand.parts).map (fun fc => fc.name)))
    ∧ (∀ cand1 cand2 st1 st2,
        (env.resp (t + 1)).candidate = some cand1 → cand1.parts ≠ [] →
        extractCalls cand1.parts ≠ [] →
        (env.resp (t + 2)).candidate = some cand2 → cand2.parts ≠ [] →
        extractCalls cand2.parts ≠ [] →
        signatureOf ((extractCalls cand1.parts).map (fun fc => fc.name)) =
          signatureOf ((extractCalls cand.parts).map (fun fc => fc.name)) →
        signatureOf ((extractCalls cand2.parts).map (fun fc => fc.name)) =
          signatureOf ((extractCalls cand.parts).map (fun fc => fc.name)) →
        stepTurn env t st = .cont st1 → stepTurn env (t + 1) st1 = .cont st2 →
        ∃ st3, stepTurn env (t + 2) st2 = .ret LOOP_BREAK_TEXT st3) := by
  refine ⟨?_, ?_, ?_, ?_⟩
  · intro hsig hrc
    rw [stepTurn_eq_toolTurn env t st cand hresp hne hcalls,
      toolTurn_loopBreak env st _ _ _ hsig hrc]
    refine ⟨?_, countP_preEvents_isToolDone env t st _⟩
    simp [preEvents, List.append_assoc]
  · intro hsig hrc
    rw [stepTurn_eq_toolTurn env t st cand hresp hne hcalls,
      toolTurn_dispatch env st _ _ _ (fun hc => absurd hc.2 (by omega)),
      if_pos hsig, if_pos hsig]
    exact ⟨(dispatchPhase_state _ _ _ _ _ _ _).2.2.2.1,
      hsig ▸ (dispatchPhase_state _ _ _ _ _ _ _).2.2.1⟩
  · intro hsig
    rw [stepTurn_eq_toolTurn env t st cand hresp hne hcalls,
      toolTurn_dispatch env st _ _ _ (fun hc => hsig hc.1),
      if_neg hsig, if_neg hsig]
    exact ⟨(dispatchPhase_state _ _ _ _ _ _ _).2.2.2.1,
      (dispatchPhase_state _ _ _ _ _ _ _).2.2.1⟩
  · intro cand1 cand2 st1 st2 hr1 hn1 hc1 hr2 hn2 hc2 hs1 hs2 h01 h12
    obtain ⟨hl1, _⟩ := stepTurn_cont_inv env t st cand hresp hne hcalls st1 h01
    obtain ⟨hl2, hd2⟩ := stepTurn_cont_inv env (t + 1) st1 cand1 hr1 hn1 hc1 st2 h12
    have heq1 : signatureOf ((extractCalls cand1.parts).map (fun fc => fc.name)) =
        st1.lastSig := by rw [hs1, hl1]
    rcases hd2 with ⟨_, hrc2, hlt2⟩ | ⟨hne2, _⟩
    · have hsig2 : signatureOf ((extractCalls cand2.parts).map (fun fc => fc.name)) =
          st2.lastSig := by rw [hs2, hl2, hs1]
      have hrcge : MAX_REPEATS ≤ st2.repeatCount + 1 := by
        unfold MAX_REPEATS at *
        omega
      rw [stepTurn_eq_toolTurn env (t + 2) st2 cand2 hr2 hn2 hc2,
        toolTurn_loopBreak env st2 _ _ _ hsig2 hrcge]
      exact ⟨_, rfl⟩
    · exact absurd heq1 hne2

def c3wEnv : OEnv :=
  { resp := fun _ =>
      { streamParts := [], candidate := some ⟨"model", [callPart "a" Json.null]⟩ },
    dispatch := fun _ => some (fun _ => .ok (Json.obj []) 5) }

/-- Claim C3 witness: with previous signature "a" and repeat counter 1,
a third identical turn returns the canned loop-break answer without
emitting any `tool_done`. -/
theorem C3_witness :
    stepTurn c3wEnv 2 ⟨[], [], "a", 1, []⟩ = .ret LOOP_BREAK_TEXT
      ⟨[] ++ [⟨"model", [callPart "a" Json.null]⟩], [], "a", 2,
       [] ++ preEvents c3wEnv 2 ⟨[], [], "a", 1, []⟩ ["a"] ++
         [Event.answer LOOP_BREAK_TEXT []]⟩
    ∧ (preEvents c3wEnv 2 ⟨[], [], "a", 1, []⟩ ["a"]).countP isToolDone = 0 :=
  (C3_theorem c3wEnv 2 ⟨[], [], "a", 1, []⟩ ⟨"model", [callPart "a" Json.null]⟩ rfl
    (List.cons_ne_nil _ _) (List.cons_ne_nil _ _)).1 (by decide) (by decide)

theorem allFailedLines_eq (env : OEnv) (calls : List FunctionCall) :
    allFailedLines calls (turnExecs env calls) = calls.map (fun fc =>
      fc.name ++ ": " ++
        displayOpt ((execCore env fc.name fc.args).1.getField? "error")) := by
  unfold allFailedLines turnExecs
  rw [zip_self_map]
  rfl

/-- The all-failed answer text, phrased the way the claim states it:
at most three `name: reason` lines plus an `...and K more` suffix. -/
def allFailedAnswer (env : OEnv) (calls : List FunctionCall) : String :=
  ALLFAILED_HEADER ++
    String.intercalate "\n" ((calls.map (fun fc =>
      fc.name ++ ": " ++
        displayOpt ((execCore env fc.name fc.args).1.getField? "error"))).take 3) ++
    (if 3 < calls.length then
      "\n...and " ++ toString (calls.length - 3) ++ " more"
     else "")

theorem allFailedText_eq (env : OEnv) (calls : List FunctionCall) :
    allFailedText (allFailedLines calls (turnExecs env calls)) =
      allFailedAnswer env calls := by
  rw [allFailedText, allFailedLines_eq, allFailedAnswer, List.length_map]

theorem turnExecs_all_error (env : OEnv) (calls : List FunctionCall)
    (hfail : ∀ fc ∈ calls, (execCore env fc.name fc.args).1.hasField "error" = true) :
    (turnExecs env calls).all (fun e => e.result.hasField "error") = true := by
  rw [List.all_eq_true]
  intro e he
  obtain ⟨fc, hfc, rfl⟩ := List.mem_map.mp he
  exact hfail fc hfc

theorem getLast?_append_singleton {α : Type} (l : List α) (a : α) :
    (l ++ [a]).getLast? = some a := by
  rw [List.getLast?_append_cons]
  rfl

/-- Claim C4: for every dispatched turn in which every tool call yields
an error payload, `orchestrate` attempts no further turn: the step
returns (and the loop stops with it) with an answer listing at most
three `name: reason` lines plus an `...and K more` suffix when more
than three failed; the answer event is the last event, the audit trail
still receives every call's entry, and the aligned response turn is
still appended to history. -/
theorem C4_theorem (env : OEnv) (t : Nat) (st : LoopState) (cand : Content)
    (hresp : (env.resp t).candidate = some cand) (hne : cand.parts ≠ [])
    (hcalls : extractCalls cand.parts ≠ [])
    (hnolb : ¬ (signatureOf ((extractCalls cand.parts).map (fun fc => fc.name)) =
        st.lastSig ∧ MAX_REPEATS ≤ st.repeatCount + 1))
    (hfail : ∀ fc ∈ extractCalls cand.parts,
      (execCore env fc.name fc.args).1.hasField "error" = true) :
    ∃ st1,
      stepTurn env t st = .ret (allFailedAnswer env (extractCalls cand.parts)) st1
      ∧ (∀ fuel, orchestrateLoop env (fuel + 1) t st =
          (allFailedAnswer env (extractCalls cand.parts), st1))
      ∧ st1.events.getLast? =
          some (Event.answer (allFailedAnswer env (extractCalls cand.parts))
            st1.allToolCalls)
      ∧ st1.allToolCalls = st.allToolCalls ++
          (turnExecs env (extractCalls cand.parts)).map (fun e => e.info)
      ∧ st1.history = st.history ++
          [cand, ⟨"user", turnResponses env (extractCalls cand.parts)⟩] := by
  have hstep : stepTurn env t st =
      dispatchPhase env st (st.history ++ [cand])
        ((st.events ++
          Event.thinking (t + 1) (thinkingMessage (t + 1) st.allToolCalls.length) ::
            (chunkTexts (env.resp t).streamParts).map Event.textChunk) ++
          [toolStartEvent ((extractCalls cand.parts).map (fun fc => fc.name))])
        (extractCalls cand.parts)
        (if signatureOf ((extractCalls cand.parts).map (fun fc => fc.name)) =
            st.lastSig then st.lastSig
         else signatureOf ((extractCalls cand.parts).map (fun fc => fc.name)))
        (if signatureOf ((extractCalls cand.parts).map (fun fc => fc.name)) =
            st.lastSig then st.repeatCount + 1
         else 0) := by
    rw [stepTurn_eq_toolTurn env t st cand hresp hne hcalls,
      toolTurn_dispatch env st _ _ _ hnolb]
  simp only [dispatchPhase] at hstep
  rw [if_pos (turnExecs_all_error env _ hfail), allFailedText_eq] at hstep
  refine ⟨_, hstep, ?_, ?_, ?_, ?_⟩
  · intro fuel
    rw [orchestrateLoop]
    simp only [hstep]
  · exact getLast?_append_singleton _ _
  · rfl
  · rw [List.append_assoc]
    rfl

def c4wCand : Content := ⟨"model",
  [callPart "t1" Json.null, callPart "t2" Json.null,
   callPart "t3" Json.null, callPart "t4" Json.null]⟩

def c4wEnv : OEnv :=
  { resp := fun _ => { streamParts := [], candidate := some c4wCand },
    dispatch := fun _ => none }

/-- Claim C4 witness: four unknown-tool calls all fail; the step returns
at once and the composed answer lists three lines plus "...and 1 more". -/
theorem C4_witness :
    (∃ st1,
      stepTurn c4wEnv 0 ⟨[], [], "", 0, []⟩ =
        .ret (allFailedAnswer c4wEnv (extractCalls c4wCand.parts)) st1
      ∧ (∀ fuel, orchestrateLoop c4wEnv (fuel + 1) 0 ⟨[], [], "", 0, []⟩ =
          (allFailedAnswer c4wEnv (extractCalls c4wCand.parts), st1))
      ∧ st1.events.getLast? =
          some (Event.answer (allFailedAnswer c4wEnv (extractCalls c4wCand.parts))
            st1.allToolCalls)
      ∧ st1.allToolCalls = [] ++
          (turnExecs c4wEnv (extractCalls c4wCand.parts)).map (fun e => e.info)
      ∧ st1.history = [] ++
          [c4wCand, ⟨"user", turnResponses c4wEnv (extractCalls c4wCand.parts)⟩])
    ∧ allFailedAnswer c4wEnv (extractCalls c4wCand.parts) =
        "I encountered errors with all tool calls and cannot proceed:\nt1: Unknown tool: t1\nt2: Unknown tool: t2\nt3: Unknown tool: t3\n...and 1 more" :=
  ⟨C4_theorem c4wEnv 0 ⟨[], [], "", 0, []⟩ c4wCand rfl (List.cons_ne_nil _ _)
    (List.cons_ne_nil _ _) (fun hc => absurd hc.1 (by decide)) (by decide),
   by decide⟩

theorem mem_dedupFirstAux (a : String) (l : List String) : ∀ seen : List String,
    a ∈ dedupFirstAux seen l ↔ a ∈ l ∧ a ∉ seen := by
  induction l with
  | nil => intro seen; simp [dedupFirstAux]
  | cons n ns ih =>
    intro seen
    rw [dedupFirstAux]
    by_cases hn : n ∈ seen
    · rw [if_pos hn, ih]
      constructor
      · rintro ⟨ha, hs⟩
        exact ⟨List.mem_cons_of_mem _ ha, hs⟩
      · rintro ⟨ha, hs⟩
        rcases List.mem_cons.mp ha with rfl | ha
        · exact absurd hn hs
        · exact ⟨ha, hs⟩
    · rw [if_neg hn]
      constructor
      · intro h
        rcases List.mem_cons.mp h with rfl | h
        · exact ⟨List.mem_cons_self _ _, hn⟩
        · rw [ih] at h
          refine ⟨List.mem_cons_of_mem _ h.1, ?_⟩
          intro hs
          exact h.2 (List.mem_cons_of_mem _ hs)
      · rintro ⟨ha, hs⟩
        rcases List.mem_cons.mp ha with rfl | ha
        · exact List.mem_cons_self _ _
        · by_cases han : a = n
          · subst han
            exact List.mem_cons_self _ _
          · refine List.mem_cons_of_mem _ ?_
            rw [ih]
            refine ⟨ha, fun hmem => ?_⟩
            rcases List.mem_cons.mp hmem with h1 | h1
            · exact han h1
            · exact hs h1

theorem mem_dedupFirst (a : String) (l : List String) :
    a ∈ dedupFirst l ↔ a ∈ l := by
  rw [dedupFirst, mem_dedupFirstAux]
  simp

theorem nodup_dedupFirstAux (l : List String) : ∀ seen : List String,
    (dedupFirstAux seen l).Nodup := by
  induction l with
  | nil => intro seen; simp [dedupFirstAux]
  | cons n ns ih =>
    intro seen
    rw [dedupFirstAux]
    by_cases hn : n ∈ seen
    · rw [if_pos hn]
      exact ih seen
    · rw [if_neg hn]
      refine List.nodup_cons.mpr ⟨?_, ih (n :: seen)⟩
      rw [mem_dedupFirstAux]
      rintro ⟨_, hs⟩
      exact hs (List.mem_cons_self _ _)

theorem nodup_dedupFirst (l : List String) : (dedupFirst l).Nodup :=
  nodup_dedupFirstAux l []

theorem count_batchedNames (ns : List String) (n : String)
    (h : 1 < ns.count n) : (batchedNames ns).count n = 1 := by
  unfold batchedNames
  rw [List.count_filter (by simpa using h)]
  exact List.count_eq_one_of_mem (nodup_dedupFirst ns)
    ((mem_dedupFirst n ns).mpr (List.count_pos_iff.mp (by omega)))

theorem countP_flatMap_zero {α β : Type} (p : β → Bool) (f : α → List β)
    (l : List α) (h : ∀ a ∈ l, (f a).countP p = 0) :
    (l.flatMap f).countP p = 0 := by
  induction l with
  | nil => rfl
  | cons a as ih =>
    rw [List.flatMap_cons, List.countP_append, h a (by simp),
      ih (fun x hx => h x (by simp [hx]))]

theorem statSucceeded_add_statErrors (l : List ExecOut) :
    statSucceeded l + statErrors l = l.length := by
  induction l with
  | nil => rfl
  | cons e es ih =>
    unfold statSucceeded statErrors at *
    rw [List.countP_cons, List.countP_cons, List.length_cons]
    cases he : e.info.error <;> simp [he] <;> omega

theorem execCore_info_name (env : OEnv) (n : String) (a : Json) :
    (execCore env n a).2.name = n := by
  unfold execCore
  cases h : env.dispatch n with
  | none => simp
  | some fn => cases hr : fn a <;> simp [hr]

theorem executeTool_info_name (env : OEnv) (n : String) (a : Json) (b : Bool) :
    (executeTool env n a b).info.name = n :=
  execCore_info_name env n a

theorem execsNamed_turnExecs (env : OEnv) (calls : List FunctionCall) (n : String) :
    execsNamed (turnExecs env calls) n =
      (calls.filter (fun fc => fc.name == n)).map (fun fc =>
        executeTool env fc.name fc.args
          ((calls.map (fun g => g.name)).count fc.name == 1)) := by
  unfold execsNamed turnExecs
  rw [List.filter_map]
  congr 1
  apply List.filter_congr
  intro fc hfc
  simp [Function.comp, executeTool_info_name]

theorem length_execsNamed (env : OEnv) (calls : List FunctionCall) (n : String) :
    (execsNamed (turnExecs env calls) n).length =
      (calls.map (fun fc => fc.name)).count n := by
  rw [execsNamed_turnExecs, List.length_map, List.count, List.countP_map]
  rw [List.countP_eq_length_filter]
  rfl

theorem perCall_countP_named_zero (env : OEnv) (calls : List FunctionCall)
    (n : String) (hN : 1 < (calls.map (fun fc => fc.name)).count n) :
    ((turnExecs env calls).flatMap (fun e => e.events)).countP
      (toolDoneNamed n) = 0 := by
  apply countP_flatMap_zero
  intro e he
  obtain ⟨fc, hfc, rfl⟩ := List.mem_map.mp he
  by_cases hn : fc.name = n
  · have hb : ((calls.map (fun g => g.name)).count fc.name == 1) = false := by
      rw [hn]
      simp only [beq_eq_false_iff_ne, ne_eq]
      omega
    unfold executeTool
    rw [hb]
    rfl
  · unfold executeTool
    cases hb : ((calls.map (fun g => g.name)).count fc.name == 1)
    · rfl
    · simp [toolDoneNamed, execCore_info_name, hn]

theorem perCall_countP_isToolStart_zero (env : OEnv) (calls : List FunctionCall) :
    ((turnExecs env calls).flatMap (fun e => e.events)).countP isToolStart = 0 := by
  apply countP_flatMap_zero
  intro e he
  obtain ⟨fc, hfc, rfl⟩ := List.mem_map.mp he
  unfold executeTool
  cases hb : ((calls.map (fun g => g.name)).count fc.name == 1)
  · rfl
  · simp [isToolStart]

theorem syntheticInfo_name (n : String) (l : List ExecOut) :
    (syntheticInfo n l).name = n := rfl

theorem synth_countP_named (env : OEnv) (calls : List FunctionCall) (n : String) :
    ((batchedNames (calls.map (fun fc => fc.name))).map
        (fun m => Event.toolDone (syntheticInfo m
          (execsNamed (turnExecs env calls) m)))).countP (toolDoneNamed n) =
      (batchedNames (calls.map (fun fc => fc.name))).count n := by
  rw [List.countP_map, List.count]
  congr 1

theorem synth_countP_isToolStart_zero (env : OEnv) (calls : List FunctionCall) :
    ((batchedNames (calls.map (fun fc => fc.name))).map
        (fun m => Event.toolDone (syntheticInfo m
          (execsNamed (turnExecs env calls) m)))).countP isToolStart = 0 := by
  rw [List.countP_map]
  rw [List.countP_eq_zero]
  intro m hm
  simp [Function.comp, isToolStart]

theorem executeTool_events (env : OEnv) (n : String) (a : Json) :
    (executeTool env n a false).events = [] ∧
    (executeTool env n a true).events = [Event.toolDone (execCore env n a).2] :=
  ⟨rfl, rfl⟩

theorem perCall_all_toolDone (env : OEnv) (calls : List FunctionCall) :
    ∀ e ∈ (turnExecs env calls).flatMap (fun e => e.events),
      ∃ i, e = Event.toolDone i := by
  intro e he
  rw [List.mem_flatMap] at he
  obtain ⟨ex, hex, he⟩ := he
  obtain ⟨fc, hfc, rfl⟩ := List.mem_map.mp hex
  cases hb : ((calls.map (fun g => g.name)).count fc.name == 1)
  · rw [hb, (executeTool_events env fc.name fc.args).1] at he
    exact absurd he (List.not_mem_nil e)
  · rw [hb, (executeTool_events env fc.name fc.args).2, List.mem_singleton] at he
    exact ⟨_, he⟩

theorem countP_tail_zero {p : Event → Bool} (tail : List Event)
    (htail : ∀ e ∈ tail, ∃ txt tc, e = Event.answer txt tc)
    (hp : ∀ txt tc, p (Event.answer txt tc) = false) :
    tail.countP p = 0 := by
  rw [List.countP_eq_zero]
  intro e he
  obtain ⟨txt, tc, rfl⟩ := htail e he
  simp [hp]

theorem chunk_countP_zero (p : Event → Bool) (l : List String)
    (hp : ∀ s, p (Event.textChunk s) = false) :
    (l.map Event.textChunk).countP p = 0 := by
  rw [List.countP_map, List.countP_eq_zero]
  intro s hs
  simp [Function.comp, hp]

theorem audit_countP (env : OEnv) (calls : List FunctionCall) (n : String) :
    ((turnExecs env calls).map (fun e => e.info)).countP (fun i => i.name == n) =
      (calls.map (fun fc => fc.name)).count n := by
  unfold turnExecs
  rw [List.map_map, List.countP_map, List.count, List.countP_map]
  apply List.countP_congr
  intro fc hfc
  simp [Function.comp, executeTool_info_name]

/-- Claim C5 (amended): for every dispatched turn and every tool name
`n` occurring `N > 1` times among its calls, the step's emitted events
contain exactly one `tool_start` (whose tools list carries `n` once,
labelled `"<label> ×N"`), zero per-invocation `tool_done` for `n` and
exactly one synthetic `tool_done` for `n`, whose info has the `×N`
label, the rounded average duration, `cacheHit` present iff at least
one call hit the cache and then equal to (hits == N), and error
`"k/N failed"` present iff `k > 0` calls failed; the audit trail still
receives all `N` individual entries. -/
theorem C5_theorem (env : OEnv) (t : Nat) (st : LoopState) (cand : Content)
    (calls : List FunctionCall) (n : String)
    (hresp : (env.resp t).candidate = some cand) (hne : cand.parts ≠ [])
    (hcex : extractCalls cand.parts = calls) (hcalls : calls ≠ [])
    (hnolb : ¬ (signatureOf (calls.map (fun fc => fc.name)) = st.lastSig ∧
      MAX_REPEATS ≤ st.repeatCount + 1))
    (hN1 : 1 < (calls.map (fun fc => fc.name)).count n) :
    ∃ Δ,
      (stepState (stepTurn env t st)).events = st.events ++ Δ
      ∧ Δ.countP isToolStart = 1
      ∧ (∀ ts ls, Event.toolStart ts ls ∈ Δ →
          ts.count n = 1 ∧ ∀ i, ts.get? i = some n →
            ls.get? i = some (toolLabel n ++ " ×" ++
              toString ((calls.map (fun fc => fc.name)).count n)))
      ∧ Δ.countP (toolDoneNamed n) = 1
      ∧ Event.toolDone (syntheticInfo n (execsNamed (turnExecs env calls) n)) ∈ Δ
      ∧ (syntheticInfo n (execsNamed (turnExecs env calls) n)).label =
          toolLabel n ++ " ×" ++ toString ((calls.map (fun fc => fc.name)).count n)
      ∧ (syntheticInfo n (execsNamed (turnExecs env calls) n)).durationMs =
          jsRound (statTotalMs (execsNamed (turnExecs env calls) n))
            ((calls.map (fun fc => fc.name)).count n)
      ∧ (syntheticInfo n (execsNamed (turnExecs env calls) n)).cacheHit =
          (if 0 < statCacheHits (execsNamed (turnExecs env calls) n) then
            some (Json.bool (statCacheHits (execsNamed (turnExecs env calls) n) ==
              (calls.map (fun fc => fc.name)).count n))
           else none)
      ∧ (syntheticInfo n (execsNamed (turnExecs env calls) n)).error =
          (if 0 < statErrors (execsNamed (turnExecs env calls) n) then
            some (toString (statErrors (execsNamed (turnExecs env calls) n)) ++ "/" ++
              toString ((calls.map (fun fc => fc.name)).count n) ++ " failed")
           else none)
      ∧ (stepState (stepTurn env t st)).allToolCalls =
          st.allToolCalls ++ (turnExecs env calls).map (fun e => e.info)
      ∧ ((turnExecs env calls).map (fun e => e.info)).countP
          (fun i => i.name == n) = (calls.map (fun fc => fc.name)).count n := by
  subst hcex
  have htot : statSucceeded (execsNamed (turnExecs env (extractCalls cand.parts)) n) +
      statErrors (execsNamed (turnExecs env (extractCalls cand.parts)) n) =
      ((extractCalls cand.parts).map (fun fc => fc.name)).count n := by
    rw [statSucceeded_add_statErrors, length_execsNamed]
  have hmemn : n ∈ (extractCalls cand.parts).map (fun fc => fc.name) :=
    List.count_pos_iff.mp (by omega)
  have hbatch : n ∈ batchedNames ((extractCalls cand.parts).map (fun fc => fc.name)) := by
    unfold batchedNames
    exact List.mem_filter.mpr ⟨(mem_dedupFirst n _).mpr hmemn, by simpa using hN1⟩
  rw [stepTurn_eq_toolTurn env t st cand hresp hne hcalls,
    toolTurn_dispatch env st _ _ _ hnolb]
  obtain ⟨h_hist, h_tc, h_sig, h_rc, tail, h_ev, h_tail⟩ :=
    dispatchPhase_state env st (st.history ++ [cand])
      ((st.events ++
        Event.thinking (t + 1) (thinkingMessage (t + 1) st.allToolCalls.length) ::
          (chunkTexts (env.resp t).streamParts).map Event.textChunk) ++
        [toolStartEvent ((extractCalls cand.parts).map (fun fc => fc.name))])
      (extractCalls cand.parts)
      (if signatureOf ((extractCalls cand.parts).map (fun fc => fc.name)) =
          st.lastSig then st.lastSig
       else signatureOf ((extractCalls cand.parts).map (fun fc => fc.name)))
      (if signatureOf ((extractCalls cand.parts).map (fun fc => fc.name)) =
          st.lastSig then st.repeatCount + 1
       else 0)
  refine ⟨Event.thinking (t + 1) (thinkingMessage (t + 1) st.allToolCalls.length) ::
    ((chunkTexts (env.resp t).streamParts).map Event.textChunk ++
      ([toolStartEvent ((extractCalls cand.parts).map (fun fc => fc.name))] ++
        ((turnExecs env (extractCalls cand.parts)).flatMap (fun e => e.events) ++
          ((batchedNames ((extractCalls cand.parts).map (fun fc => fc.name))).map
            (fun m => Event.toolDone (syntheticInfo m
              (execsNamed (turnExecs env (extractCalls cand.parts)) m))) ++ tail)))),
    ?_, ?_, ?_, ?_, ?_, ?_, ?_, ?_, ?_, ?_, ?_⟩
  · rw [h_ev]
    simp [List.append_assoc]
  · simp only [List.countP_cons, List.countP_append]
    rw [chunk_countP_zero isToolStart _ (fun s => rfl),
      perCall_countP_isToolStart_zero env (extractCalls cand.parts),
      synth_countP_isToolStart_zero env (extractCalls cand.parts),
      countP_tail_zero tail h_tail (fun txt tc => rfl)]
    simp [isToolStart, toolStartEvent]
  · intro ts ls hmem
    have hid : ts = dedupFirst ((extractCalls cand.parts).map (fun fc => fc.name))
        ∧ ls = (dedupFirst ((extractCalls cand.parts).map (fun fc => fc.name))).map
          (fun m => if 1 < ((extractCalls cand.parts).map (fun fc => fc.name)).count m
            then toolLabel m ++ " ×" ++
              toString (((extractCalls cand.parts).map (fun fc => fc.name)).count m)
            else toolLabel m) := by
      rcases List.mem_cons.mp hmem with heq | hmem1
      · exact Event.noConfusion heq
      rcases List.mem_append.mp hmem1 with hch | hmem2
      · obtain ⟨s, _, heq⟩ := List.mem_map.mp hch
        exact Event.noConfusion heq
      rcases List.mem_append.mp hmem2 with hts | hmem3
      · rw [List.mem_singleton] at hts
        unfold toolStartEvent at hts
        injection hts with h1 h2
        exact ⟨h1, h2⟩
      rcases List.mem_append.mp hmem3 with hpc | hmem4
      · obtain ⟨i, heq⟩ := perCall_all_toolDone env (extractCalls cand.parts) _ hpc
        exact Event.noConfusion heq
      rcases List.mem_append.mp hmem4 with hsy | hta
      · obtain ⟨m, _, heq⟩ := List.mem_map.mp hsy
        exact Event.noConfusion heq
      · obtain ⟨txt, tc, heq⟩ := h_tail _ hta
        exact Event.noConfusion (heq ▸ rfl : Event.toolStart ts ls = Event.answer txt tc)
    obtain ⟨hts, hls⟩ := hid
    subst hts hls
    refine ⟨List.count_eq_one_of_mem (nodup_dedupFirst _)
      ((mem_dedupFirst n _).mpr hmemn), ?_⟩
    intro i hi
    rw [List.get?_map, hi, Option.map_some']
    rw [if_pos hN1]
  · simp only [List.countP_cons, List.countP_append]
    rw [chunk_countP_zero (toolDoneNamed n) _ (fun s => rfl),
      perCall_countP_named_zero env (extractCalls cand.parts) n hN1,
      synth_countP_named env (extractCalls cand.parts) n,
      count_batchedNames _ n hN1,
      countP_tail_zero tail h_tail (fun txt tc => rfl)]
    simp [toolDoneNamed, toolStartEvent]
  · refine List.mem_cons_of_mem _ (List.mem_append_right _
      (List.mem_append_right _ (List.mem_append_right _ (List.mem_append_left _ ?_))))
    exact List.mem_map.mpr ⟨n, hbatch, rfl⟩
  · simp only [syntheticInfo]
    rw [htot]
  · simp only [syntheticInfo]
    rw [htot, if_pos (by omega)]
  · simp only [syntheticInfo]
    rw [htot]
  · simp only [syntheticInfo]
    rw [htot]
  · exact h_tc
  · exact audit_countP env (extractCalls cand.parts) n

def c5wCand : Content := ⟨"model",
  [callPart "check_user_topic_posts" (Json.str "u1"),
   callPart "check_user_topic_posts" (Json.str "u2")]⟩

def c5wEnv : OEnv :=
  { resp := fun _ => { streamParts := [], candidate := some c5wCand },
    dispatch := fun _ =>
      some (fun _ => .ok (Json.obj [("cacheHit", Json.bool true)]) 10) }

/-- Claim C5 witness: two batched `check_user_topic_posts` calls, both
cache hits: one tool_start, one synthetic tool_done with the ×2 label,
cacheHit true, and the average duration. -/
theorem C5_witness :
    (∃ Δ, (stepState (stepTurn c5wEnv 0 ⟨[], [], "", 0, []⟩)).events = [] ++ Δ
      ∧ Δ.countP isToolStart = 1
      ∧ Δ.countP (toolDoneNamed "check_user_topic_posts") = 1)
    ∧ (syntheticInfo "check_user_topic_posts"
        (execsNamed (turnExecs c5wEnv (extractCalls c5wCand.parts))
          "check_user_topic_posts")).label = "Scanning creator content ×2"
    ∧ (syntheticInfo "check_user_topic_posts"
        (execsNamed (turnExecs c5wEnv (extractCalls c5wCand.parts))
          "check_user_topic_posts")).durationMs = 10
    ∧ (syntheticInfo "check_user_topic_posts"
        (execsNamed (turnExecs c5wEnv (extractCalls c5wCand.parts))
          "check_user_topic_posts")).cacheHit = some (Json.bool true) := by
  refine ⟨?_, by decide, by decide, rfl⟩
  obtain ⟨Δ, h1, h2, _, h4, _⟩ := C5_theorem c5wEnv 0 ⟨[], [], "", 0, []⟩ c5wCand
    (extractCalls c5wCand.parts) "check_user_topic_posts" rfl
    (List.cons_ne_nil _ _) rfl (List.cons_ne_nil _ _)
    (fun h => absurd h.1 (by decide)) (by decide)
  exact ⟨Δ, h1, h2, h4⟩

def c5xCand : Content := ⟨"model",
  [callPart "get_profile" (Json.str "a"), callPart "get_profile" (Json.str "b")]⟩

def c5xEnv : OEnv :=
  { resp := fun _ => { streamParts := [], candidate := some c5xCand },
    dispatch := fun _ => some (fun _ => .ok (Json.obj [("x", Json.num 1)]) 4) }

/-- Claim C5 counterexample: two batched `get_profile` calls with zero
cache hits. The claim as stated demands the synthetic tool_done's info
have `cacheHit = (hits == N)`, i.e. the field present with value false;
the code omits the field entirely when no call hit the cache (the
single tool_done for the name carries no cacheHit at all). -/
theorem C5_counterexample :
    ((stepState (stepTurn c5xEnv 0 ⟨[], [], "", 0, []⟩)).events.filterMap
      (fun e => match e with
        | .toolDone i => some (i.name, i.label, i.durationMs, i.cacheHit.isSome)
        | _ => none)) =
      [("get_profile", "Fetching Instagram profile ×2", 4, false)]
    ∧ (syntheticInfo "get_profile"
        (execsNamed (turnExecs c5xEnv (extractCalls c5xCand.parts))
          "get_profile")).cacheHit = none := by
  exact ⟨by decide, rfl⟩

/-! ### Session-store lemmas -/

/-- Well-formed store: unique keys, and no key is the empty string
(server-issued ids are UUIDs). -/
def goodStore (m : List (String × SessionData)) : Prop :=
  (m.map Prod.fst).Nodup ∧ ∀ k ∈ m.map Prod.fst, k ≠ ""

/-- Operations whose ids can only be server-issued (non-empty). -/
def opOk : SessionOp → Prop
  | .create id _ => id ≠ ""
  | .set id _ _ => id ≠ ""
  | _ => True

theorem keys_mapSet (m : List (String × SessionData)) (id : String) (s : SessionData) :
    (mapSet m id s).map Prod.fst =
      if id ∈ m.map Prod.fst then m.map Prod.fst else m.map Prod.fst ++ [id] := by
  induction m with
  | nil => simp [mapSet]
  | cons kv rest ih =>
    obtain ⟨k, v⟩ := kv
    by_cases h : k = id
    · subst h
      simp [mapSet]
    · simp only [mapSet, if_neg h, List.map_cons, ih]
      by_cases h2 : id ∈ rest.map Prod.fst
      · rw [if_pos h2, if_pos (List.mem_cons_of_mem k h2)]
      · rw [if_neg h2, if_neg ?notmem, List.cons_append]
        case notmem =>
          intro hmem
          rcases List.mem_cons.mp hmem with he | hm
          · exact h he.symm
          · exact h2 hm

theorem length_mapSet (m : List (String × SessionData)) (id : String)
    (s : SessionData) :
    (mapSet m id s).length =
      if id ∈ m.map Prod.fst then m.length else m.length + 1 := by
  by_cases h2 : id ∈ m.map Prod.fst
  · rw [if_pos h2, ← List.length_map (mapSet m id s) Prod.fst, keys_mapSet,
      if_pos h2, List.length_map]
  · rw [if_neg h2, ← List.length_map (mapSet m id s) Prod.fst, keys_mapSet,
      if_neg h2, List.length_append, List.length_map]
    rfl

theorem mapSet_fresh (m : List (String × SessionData)) (id : String)
    (s : SessionData) (h : id ∉ m.map Prod.fst) :
    mapSet m id s = m ++ [(id, s)] := by
  induction m with
  | nil => rfl
  | cons kv rest ih =>
    obtain ⟨k, v⟩ := kv
    have hk : ¬ k = id := fun he => h (by simp [he])
    simp only [mapSet, if_neg hk, List.cons_append]
    rw [ih (fun hm => h (List.mem_cons_of_mem _ hm))]

theorem good_mapSet (m : List (String × SessionData)) (id : String)
    (s : SessionData) (hg : goodStore m) (hid : id ≠ "") :
    goodStore (mapSet m id s) := by
  constructor
  · rw [keys_mapSet]
    by_cases h : id ∈ m.map Prod.fst
    · rw [if_pos h]
      exact hg.1
    · rw [if_neg h, List.nodup_append]
      exact ⟨hg.1, List.nodup_singleton id,
        fun a ha hb => h ((List.mem_singleton.mp hb) ▸ ha)⟩
  · intro k hk
    rw [keys_mapSet] at hk
    by_cases h : id ∈ m.map Prod.fst
    · rw [if_pos h] at hk
      exact hg.2 k hk
    · rw [if_neg h] at hk
      rcases List.mem_append.mp hk with h1 | h1
      · exact hg.2 k h1
      · exact (List.mem_singleton.mp h1) ▸ hid

theorem keys_mapDelete_sublist (m : List (String × SessionData)) (id : String) :
    ((mapDelete m id).map Prod.fst).Sublist (m.map Prod.fst) := by
  induction m with
  | nil => simp [mapDelete]
  | cons kv rest ih =>
    obtain ⟨k, v⟩ := kv
    by_cases h : k = id
    · simp only [mapDelete, if_pos h, List.map_cons]
      exact List.sublist_cons_self _ _
    · simp only [mapDelete, if_neg h, List.map_cons]
      exact ih.cons₂ k

theorem good_mapDelete (m : List (String × SessionData)) (id : String)
    (hg : goodStore m) : goodStore (mapDelete m id) :=
  ⟨(keys_mapDelete_sublist m id).nodup hg.1,
   fun k hk => hg.2 k ((keys_mapDelete_sublist m id).subset hk)⟩

theorem length_mapDelete_le (m : List (String × SessionData)) (id : String) :
    (mapDelete m id).length ≤ m.length := by
  have h := (keys_mapDelete_sublist m id).length_le
  simpa using h

theorem length_mapDelete_mem (m : List (String × SessionData)) (id : String)
    (h : id ∈ m.map Prod.fst) :
    (mapDelete m id).length + 1 = m.length := by
  induction m with
  | nil => simp at h
  | cons kv rest ih =>
    obtain ⟨k, v⟩ := kv
    by_cases hk : k = id
    · simp [mapDelete, hk]
    · have h2 : id ∈ rest.map Prod.fst := by
        rcases List.mem_cons.mp h with h1 | h1
        · exact absurd h1.symm hk
        · exact h1
      simp only [mapDelete, if_neg hk, List.length_cons]
      rw [← ih h2]

theorem mapLookup_some_mem (m : List (String × SessionData)) (id : String)
    (s : SessionData) (h : mapLookup m id = some s) :
    id ∈ m.map Prod.fst := by
  induction m with
  | nil => exact absurd h (by simp [mapLookup])
  | cons kv rest ih =>
    obtain ⟨k, v⟩ := kv
    by_cases hk : k = id
    · simp [hk]
    · rw [mapLookup, if_neg hk] at h
      exact List.mem_cons_of_mem _ (ih h)

theorem foldl_min_mem (rest : List (String × SessionData)) (kv : String × SessionData) :
    rest.foldl (fun best x => if x.2.updatedAt < best.2.updatedAt then x else best) kv ∈
      kv :: rest := by
  induction rest generalizing kv with
  | nil => simp [List.foldl]
  | cons x xs ih =>
    rw [List.foldl_cons]
    by_cases h : x.2.updatedAt < kv.2.updatedAt
    · rw [if_pos h]
      rcases List.mem_cons.mp (ih x) with h1 | h1
      · rw [h1]
        exact List.mem_cons_of_mem _ (List.mem_cons_self _ _)
      · exact List.mem_cons_of_mem _ (List.mem_cons_of_mem _ h1)
    · rw [if_neg h]
      rcases List.mem_cons.mp (ih kv) with h1 | h1
      · rw [h1]
        exact List.mem_cons_self _ _
      · exact List.mem_cons_of_mem _ (List.mem_cons_of_mem _ h1)

theorem foldl_min_stay (rest : List (String × SessionData)) (kv : String × SessionData)
    (h : ∀ x ∈ rest, ¬ x.2.updatedAt < kv.2.updatedAt) :
    rest.foldl (fun best x => if x.2.updatedAt < best.2.updatedAt then x else best) kv =
      kv := by
  induction rest with
  | nil => rfl
  | cons x xs ih =>
    rw [List.foldl_cons, if_neg (h x (List.mem_cons_self _ _))]
    exact ih (fun y hy => h y (List.mem_cons_of_mem _ hy))

theorem oldestEntry_mem (m : List (String × SessionData)) (kv : String × SessionData)
    (h : oldestEntry m = some kv) : kv ∈ m := by
  cases m with
  | nil => exact absurd h (by simp [oldestEntry])
  | cons x rest =>
    rw [oldestEntry] at h
    injection h with h
    exact h ▸ foldl_min_mem rest x

theorem length_evictOldest (m : List (String × SessionData)) (hg : goodStore m)
    (hne : m ≠ []) : (evictOldest m).length + 1 = m.length := by
  cases ho : oldestEntry m with
  | none =>
    cases m with
    | nil => exact absurd rfl hne
    | cons x rest =>
      rw [oldestEntry] at ho
      exact Option.noConfusion ho
  | some kv =>
    have hmem := oldestEntry_mem m kv ho
    have hkey : kv.1 ∈ m.map Prod.fst := List.mem_map.mpr ⟨kv, hmem, rfl⟩
    simp only [evictOldest, ho]
    rw [if_neg (hg.2 kv.1 hkey)]
    exact length_mapDelete_mem m kv.1 hkey

theorem good_evictOldest (m : List (String × SessionData)) (hg : goodStore m) :
    goodStore (evictOldest m) := by
  cases ho : oldestEntry m with
  | none =>
    simp only [evictOldest, ho]
    exact hg
  | some kv =>
    simp only [evictOldest, ho]
    by_cases hk : kv.1 = ""
    · rw [if_pos hk]
      exact hg
    · rw [if_neg hk]
      exact good_mapDelete m kv.1 hg

theorem keys_evictExpired_sublist (m : List (String × SessionData)) (now : Int) :
    ((evictExpired m now).map Prod.fst).Sublist (m.map Prod.fst) :=
  (List.filter_sublist m).map Prod.fst

theorem good_evictExpired (m : List (String × SessionData)) (now : Int)
    (hg : goodStore m) : goodStore (evictExpired m now) :=
  ⟨(keys_evictExpired_sublist m now).nodup hg.1,
   fun k hk => hg.2 k ((keys_evictExpired_sublist m now).subset hk)⟩

theorem length_evictExpired_le (m : List (String × SessionData)) (now : Int) :
    (evictExpired m now).length ≤ m.length :=
  List.length_filter_le _ m

theorem applyOp_preserves (m : List (String × SessionData)) (op : SessionOp)
    (hg : goodStore m) (hlen : m.length ≤ MAX_SESSIONS) (hop : opOk op) :
    goodStore (applyOp m op) ∧ (applyOp m op).length ≤ MAX_SESSIONS := by
  cases op with
  | create id now =>
    simp only [applyOp, createSession]
    by_cases hcap : MAX_SESSIONS ≤ m.length
    · rw [if_pos hcap]
      have hg2 : goodStore (evictExpired m now) := good_evictExpired m now hg
      have hlen2 : (evictExpired m now).length ≤ MAX_SESSIONS :=
        le_trans (length_evictExpired_le m now) hlen
      by_cases hnil : evictExpired m now = []
      · rw [hnil]
        have he : evictOldest ([] : List (String × SessionData)) = [] := rfl
        rw [he]
        refine ⟨good_mapSet [] id _ ⟨List.nodup_nil, by simp⟩ hop, ?_⟩
        rw [length_mapSet]
        simp [MAX_SESSIONS]
      · have h3 := length_evictOldest (evictExpired m now) hg2 hnil
        refine ⟨good_mapSet _ id _ (good_evictOldest _ hg2) hop, ?_⟩
        rw [length_mapSet]
        by_cases hmem : id ∈ (evictOldest (evictExpired m now)).map Prod.fst
        · rw [if_pos hmem]
          omega
        · rw [if_neg hmem]
          omega
    · rw [if_neg hcap]
      refine ⟨good_mapSet m id _ hg hop, ?_⟩
      rw [length_mapSet]
      by_cases hmem : id ∈ m.map Prod.fst
      · rw [if_pos hmem]
        omega
      · rw [if_neg hmem]
        omega
  | get id now =>
    cases hl : mapLookup m id with
    | none =>
      simp only [applyOp, getSession, hl]
      exact ⟨hg, hlen⟩
    | some s =>
      simp only [applyOp, getSession, hl]
      by_cases hexp : SESSION_TTL < now - s.updatedAt
      · rw [if_pos hexp]
        exact ⟨good_mapDelete m id hg, le_trans (length_mapDelete_le m id) hlen⟩
      · rw [if_neg hexp]
        have hmem := mapLookup_some_mem m id s hl
        refine ⟨good_mapSet m id _ hg (hg.2 id hmem), ?_⟩
        rw [length_mapSet, if_pos hmem]
        exact hlen
  | set id h now =>
    cases hl : mapLookup m id with
    | some s =>
      simp only [applyOp, setSession, hl]
      have hmem := mapLookup_some_mem m id s hl
      refine ⟨good_mapSet m id _ hg hop, ?_⟩
      rw [length_mapSet, if_pos hmem]
      exact hlen
    | none =>
      simp only [applyOp, setSession, hl]
      by_cases hcap : MAX_SESSIONS ≤ m.length
      · rw [if_pos hcap]
        by_cases hnil : m = []
        · rw [hnil] at hcap
          exact absurd hcap (by simp [MAX_SESSIONS])
        · have h3 := length_evictOldest m hg hnil
          refine ⟨good_mapSet _ id _ (good_evictOldest m hg) hop, ?_⟩
          rw [length_mapSet]
          by_cases hmem : id ∈ (evictOldest m).map Prod.fst
          · rw [if_pos hmem]
            omega
          · rw [if_neg hmem]
            omega
      · rw [if_neg hcap]
        refine ⟨good_mapSet m id _ hg hop, ?_⟩
        rw [length_mapSet]
        by_cases hmem : id ∈ m.map Prod.fst
        · rw [if_pos hmem]
          omega
        · rw [if_neg hmem]
          omega
  | del id =>
    exact ⟨good_mapDelete m id hg, le_trans (length_mapDelete_le m id) hlen⟩
  | sweep now =>
    exact ⟨good_evictExpired m now hg, le_trans (length_evictExpired_le m now) hlen⟩

theorem runOps_preserves (ops : List SessionOp) : ∀ m, goodStore m →
    m.length ≤ MAX_SESSIONS → (∀ op ∈ ops, opOk op) →
    goodStore (runOps m ops) ∧ (runOps m ops).length ≤ MAX_SESSIONS := by
  induction ops with
  | nil =>
    intro m hg hlen _
    exact ⟨hg, hlen⟩
  | cons op ops ih =>
    intro m hg hlen hops
    have h1 := applyOp_preserves m op hg hlen (hops op (List.mem_cons_self _ _))
    exact ih (applyOp m op) h1.1 h1.2 (fun o ho => hops o (List.mem_cons_of_mem _ ho))

/-- Claim C9 (amended): for every sequence of session-store operations
whose create/set ids are non-empty (server-issued UUIDs are),
`sessionCount ≤ MAX_SESSIONS` (500) holds at all times; `createSession`
under pressure runs the expiry sweep then LRU eviction before the
insert, and `setSession` on an absent id under pressure evicts the LRU
session. (Without the non-empty-id restriction the bound fails, see the
counterexample: the `if (oldest)` guard skips eviction for the
empty-string key.) -/
theorem C9_theorem (ops : List SessionOp) (hops : ∀ op ∈ ops, opOk op) :
    sessionCount (runOps [] ops) ≤ MAX_SESSIONS
    ∧ (∀ m id now, MAX_SESSIONS ≤ m.length →
        createSession m id now =
          mapSet (evictOldest (evictExpired m now)) id ⟨[], now, now⟩)
    ∧ (∀ m id h now, mapLookup m id = none → MAX_SESSIONS ≤ m.length →
        setSession m id h now = mapSet (evictOldest m) id ⟨h, now, now⟩) := by
  refine ⟨?_, ?_, ?_⟩
  · exact (runOps_preserves ops [] ⟨List.nodup_nil, by simp⟩
      (Nat.zero_le _) hops).2
  · intro m id now hcap
    simp only [createSession]
    rw [if_pos hcap]
  · intro m id h now hl hcap
    simp only [setSession, hl]
    rw [if_pos hcap]

def mkId (i : Nat) : String := String.mk (List.replicate i 'a')

theorem mkId_inj (i j : Nat) (h : mkId i = mkId j) : i = j := by
  have h1 : List.replicate i 'a' = List.replicate j 'a' := congrArg String.data h
  have h2 := congrArg List.length h1
  simpa using h2

theorem mkId_ne_empty (i : Nat) : mkId (i + 1) ≠ "" := by
  intro h
  have h1 : List.replicate (i + 1) 'a' = [] := congrArg String.data h
  simp [List.replicate_succ] at h1

theorem mkId_ne_x (i : Nat) : mkId (i + 1) ≠ "x" := by
  intro h
  have h1 : List.replicate (i + 1) 'a' = ['x'] := congrArg String.data h
  rw [List.replicate_succ] at h1
  injection h1 with h2 h3
  exact absurd h2 (by decide)

def s0 : SessionData := ⟨[], 0, 0⟩

def c9Ids : List String := (List.range 499).map (fun i => mkId (i + 1))

def c9Store : List (String × SessionData) :=
  ("", s0) :: c9Ids.map (fun id => (id, s0))

def c9Ops : List SessionOp :=
  SessionOp.set "" [] 0 ::
    (c9Ids.map (fun id => SessionOp.create id 0) ++ [SessionOp.create "x" 0])

theorem c9Ids_nodup : c9Ids.Nodup := by
  apply List.Nodup.map
  · intro a b h
    have := mkId_inj (a + 1) (b + 1) h
    omega
  · exact List.nodup_range 499

theorem c9Ids_ne_empty : ∀ id ∈ c9Ids, id ≠ "" := by
  intro id hid
  obtain ⟨i, _, rfl⟩ := List.mem_map.mp hid
  exact mkId_ne_empty i

theorem c9_x_fresh : "x" ∉ ("" :: c9Ids : List String) := by
  intro h
  rcases List.mem_cons.mp h with h | h
  · exact absurd h (by decide)
  · obtain ⟨i, _, heq⟩ := List.mem_map.mp h
    exact mkId_ne_x i heq

/-- Fresh non-capacity creates just append: below capacity the
`sessions.size >= MAX_SESSIONS` branch never runs. -/
theorem runCreates (ids : List String) : ∀ m : List (String × SessionData),
    (∀ id ∈ ids, id ∉ m.map Prod.fst) → ids.Nodup →
    m.length + ids.length ≤ MAX_SESSIONS →
    runOps m (ids.map (fun id => SessionOp.create id 0)) =
      m ++ ids.map (fun id => (id, ⟨[], 0, 0⟩)) := by
  induction ids with
  | nil =>
    intro m _ _ _
    simp [runOps]
  | cons id ids ih =>
    intro m hfresh hnodup hlen
    simp only [List.length_cons] at hlen
    have hcap : ¬ MAX_SESSIONS ≤ m.length := by omega
    have hstep : applyOp m (SessionOp.create id 0) = m ++ [(id, ⟨[], 0, 0⟩)] := by
      simp only [applyOp, createSession]
      rw [if_neg hcap]
      exact mapSet_fresh m id _ (hfresh id (List.mem_cons_self _ _))
    have hne := List.nodup_cons.mp hnodup
    have hf : ∀ i ∈ ids,
        i ∉ (m ++ [(id, (⟨[], 0, 0⟩ : SessionData))]).map Prod.fst := by
      intro i hi hmem
      rw [List.map_append] at hmem
      rcases List.mem_append.mp hmem with h | h
      · exact hfresh i (List.mem_cons_of_mem _ hi) h
      · have h1 : i = id := by simpa using h
        exact hne.1 (h1 ▸ hi)
    have hl : (m ++ [(id, (⟨[], 0, 0⟩ : SessionData))]).length + ids.length
        ≤ MAX_SESSIONS := by
      simp only [List.length_append, List.length_cons, List.length_nil]
      omega
    calc runOps m ((id :: ids).map (fun i => SessionOp.create i 0))
        = runOps (applyOp m (SessionOp.create id 0))
            (ids.map (fun i => SessionOp.create i 0)) := rfl
      _ = runOps (m ++ [(id, ⟨[], 0, 0⟩)])
            (ids.map (fun i => SessionOp.create i 0)) := by rw [hstep]
      _ = (m ++ [(id, ⟨[], 0, 0⟩)]) ++ ids.map (fun i => (i, ⟨[], 0, 0⟩)) :=
            ih _ hf hne.2 hl
      _ = m ++ (id :: ids).map (fun i => (i, ⟨[], 0, 0⟩)) := by simp

theorem c9_mid :
    runOps [("", s0)] (c9Ids.map (fun id => SessionOp.create id 0)) = c9Store := by
  have hf : ∀ id ∈ c9Ids,
      id ∉ ([("", s0)] : List (String × SessionData)).map Prod.fst := by
    intro id hid hmem
    have h1 : id = "" := by simpa using hmem
    exact c9Ids_ne_empty id hid h1
  have hl : ([("", s0)] : List (String × SessionData)).length + c9Ids.length
      ≤ MAX_SESSIONS := by
    simp [c9Ids, MAX_SESSIONS]
  exact (runCreates c9Ids [("", s0)] hf c9Ids_nodup hl).trans rfl

theorem c9Store_length : c9Store.length = 500 := by
  simp [c9Store, c9Ids]

theorem c9Store_updated_zero : ∀ kv ∈ c9Store, kv.2.updatedAt = 0 := by
  intro kv hkv
  rcases List.mem_cons.mp hkv with rfl | h
  · rfl
  · obtain ⟨id, _, rfl⟩ := List.mem_map.mp h
    rfl

theorem c9_expired : evictExpired c9Store 0 = c9Store := by
  unfold evictExpired
  apply List.filter_eq_self.mpr
  intro kv hkv
  rw [c9Store_updated_zero kv hkv]
  decide

theorem c9_oldest : oldestEntry c9Store = some ("", s0) := by
  have h1 : oldestEntry c9Store =
      some ((c9Ids.map (fun id => (id, s0))).foldl
        (fun best x => if x.2.updatedAt < best.2.updatedAt then x else best)
        ("", s0)) := rfl
  have h2 : (c9Ids.map (fun id => (id, s0))).foldl
      (fun best x => if x.2.updatedAt < best.2.updatedAt then x else best)
      ("", s0) = ("", s0) := by
    apply foldl_min_stay
    intro x hx
    obtain ⟨id, _, rfl⟩ := List.mem_map.mp hx
    exact lt_irrefl _
  exact h1.trans (congrArg some h2)

theorem c9_evict : evictOldest c9Store = c9Store := by
  simp only [evictOldest, c9_oldest]
  exact if_pos trivial

theorem c9_store_keys : c9Store.map Prod.fst = "" :: c9Ids := by
  simp only [c9Store, List.map_cons, List.map_map]
  have h : (Prod.fst ∘ fun id : String => (id, s0)) = fun id => id := rfl
  rw [h]
  simp

theorem c9_final :
    applyOp c9Store (SessionOp.create "x" 0) = c9Store ++ [("x", s0)] := by
  have hcap : MAX_SESSIONS ≤ c9Store.length := by
    rw [c9Store_length]
    decide
  have hfresh : "x" ∉ c9Store.map Prod.fst := by
    rw [c9_store_keys]
    exact c9_x_fresh
  calc applyOp c9Store (SessionOp.create "x" 0)
      = mapSet (if MAX_SESSIONS ≤ c9Store.length
          then evictOldest (evictExpired c9Store 0) else c9Store) "x" ⟨[], 0, 0⟩ := by
        simp only [applyOp, createSession]
    _ = mapSet c9Store "x" ⟨[], 0, 0⟩ := by
        rw [if_pos hcap, c9_expired, c9_evict]
    _ = c9Store ++ [("x", s0)] := mapSet_fresh c9Store "x" _ hfresh

/-- Claim C9 counterexample: one `setSession` with the empty-string id
(the claim as stated covers arbitrary keys) followed by 499 fresh creates
fills the store; the next create picks the empty-string entry as oldest,
the falsy `if (oldest)` guard skips the delete, and the store grows to
501 > MAX_SESSIONS. -/
theorem C9_counterexample :
    MAX_SESSIONS < sessionCount (runOps [] c9Ops)
    ∧ sessionCount (runOps [] c9Ops) = 501 := by
  have hcons : ∀ (m : List (String × SessionData)) (op : SessionOp)
      (ops : List SessionOp), runOps m (op :: ops) = runOps (applyOp m op) ops :=
    fun _ _ _ => rfl
  have hone : ∀ (m : List (String × SessionData)) (op : SessionOp),
      runOps m [op] = applyOp m op :=
    fun _ _ => rfl
  have happ : ∀ (m : List (String × SessionData)) (l1 l2 : List SessionOp),
      runOps m (l1 ++ l2) = runOps (runOps m l1) l2 := by
    intro m l1 l2
    simp only [runOps, List.foldl_append]
  have e1 : applyOp [] (SessionOp.set "" [] 0) = [("", s0)] := rfl
  have h0 : runOps [] c9Ops =
      runOps [("", s0)] (c9Ids.map (fun id => SessionOp.create id 0)
        ++ [SessionOp.create "x" 0]) := by
    simp only [c9Ops]
    rw [hcons, e1]
  have h2 : runOps [("", s0)] (c9Ids.map (fun id => SessionOp.create id 0)
      ++ [SessionOp.create "x" 0]) =
      applyOp (runOps [("", s0)] (c9Ids.map (fun id => SessionOp.create id 0)))
        (SessionOp.create "x" 0) :=
    (happ [("", s0)] (c9Ids.map (fun id => SessionOp.create id 0))
        [SessionOp.create "x" 0]).trans
      (hone (runOps [("", s0)] (c9Ids.map (fun id => SessionOp.create id 0)))
        (SessionOp.create "x" 0))
  have hx : sessionCount (c9Store ++ [("x", s0)]) = 501 := by
    simp [sessionCount, c9Store_length]
  have h3 : sessionCount (runOps [] c9Ops) = 501 := by
    calc sessionCount (runOps [] c9Ops)
        = sessionCount (applyOp
            (runOps [("", s0)] (c9Ids.map (fun id => SessionOp.create id 0)))
            (SessionOp.create "x" 0)) := by rw [h0, h2]
      _ = sessionCount (c9Store ++ [("x", s0)]) := by rw [c9_mid, c9_final]
      _ = 501 := hx
  refine ⟨?_, h3⟩
  rw [h3]
  decide

/-- Claim C9 witness: a short UUID-style op sequence keeps the bound,
and a full store makes `createSession` evict before inserting. -/
theorem C9_witness :
    sessionCount (runOps []
      [SessionOp.create "a1" 0, SessionOp.set "b2" [] 1, SessionOp.get "a1" 2,
       SessionOp.del "b2", SessionOp.sweep 3]) ≤ MAX_SESSIONS
    ∧ createSession (List.replicate 500 ("k", ⟨[], 0, 0⟩)) "a1" 7 =
        mapSet (evictOldest (evictExpired (List.replicate 500 ("k", ⟨[], 0, 0⟩)) 7))
          "a1" ⟨[], 7, 7⟩ := by
  have h := C9_theorem
    [SessionOp.create "a1" 0, SessionOp.set "b2" [] 1, SessionOp.get "a1" 2,
     SessionOp.del "b2", SessionOp.sweep 3]
    (by
      intro op hop
      rcases List.mem_cons.mp hop with rfl | hop
      · exact (by decide : ("a1" : String) ≠ "")
      rcases List.mem_cons.mp hop with rfl | hop
      · exact (by decide : ("b2" : String) ≠ "")
      rcases List.mem_cons.mp hop with rfl | hop
      · exact trivial
      rcases List.mem_cons.mp hop with rfl | hop
      · exact trivial
      rcases List.mem_cons.mp hop with rfl | hop
      · exact trivial
      · exact absurd hop (List.not_mem_nil _))
  exact ⟨h.1, h.2.1 (List.replicate 500 ("k", ⟨[], 0, 0⟩)) "a1" 7
    (by simp [MAX_SESSIONS])⟩

end GncMcp
